import Mathlib

/-!
# Vacuum-cleaner game: game-state core of `OpenGL.cpp`

A shallow embedding of the game-state part of `src/OpenGL/OpenGL.cpp`
(`generateObjects`, `checkCollisions`, `processInput` and the body of the
main loop), followed by theorems about it.

Conventions of the embedding.

* `float` values are elements of an arbitrary linearly ordered field `α`
  (exact arithmetic, no rounding).  At `α = ℚ` every definition below
  evaluates; at `α = ℝ` the Euclidean distance is available as a square root.
* The global variables of the program are the fields of `GameState`; a
  function that mutates globals is a function `GameState α → GameState α`.
* In this exact model `int score` is an unbounded `Int`.
* The collision pass is modelled a second time as the machine runs it
  (`checkCollisionsF32`): the distance test in binary32 arithmetic and
  `score++` wrapping at 32 bits.  That model is used where rounding or
  overflow decides a statement.
* Rendering, shader, texture and camera code does not feed back into the game
  state and is left out.
-/

namespace VacuumCleaner

/-! ## Vectors (`glm::vec3`) -/

/-- Three-component vector, the `glm::vec3` of the program. -/
structure Vec3 (α : Type) where
  x : α
  y : α
  z : α
deriving DecidableEq, Repr

namespace Vec3

variable {α : Type} [LinearOrderedField α]

/-- Component-wise sum, `operator+` of `glm::vec3`. -/
def add (a b : Vec3 α) : Vec3 α := ⟨a.x + b.x, a.y + b.y, a.z + b.z⟩

/-- Component-wise difference, `operator-` of `glm::vec3`. -/
def sub (a b : Vec3 α) : Vec3 α := ⟨a.x - b.x, a.y - b.y, a.z - b.z⟩

/-- Product with a scalar, `vec3 * float`. -/
def smul (a : Vec3 α) (k : α) : Vec3 α := ⟨a.x * k, a.y * k, a.z * k⟩

/-- Dot product, `glm::dot`. -/
def dot (a b : Vec3 α) : α := a.x * b.x + a.y * b.y + a.z * b.z

/-- Squared Euclidean distance: `glm::distance(a, b)` is
`sqrt(dot(b - a, b - a))`, and this is the argument of that square root. -/
def distance2 (a b : Vec3 α) : α := dot (sub b a) (sub b a)

/-- The test `glm::distance(a, b) < r` for a positive radius `r`, decided
without a square root: `sqrt d < r` holds exactly when `d < r * r`
(see `closer_iff_sqrt` for the statement over the reals). -/
def closer (a b : Vec3 α) (r : α) : Bool := decide (distance2 a b < r * r)

end Vec3

/-! ## Global state -/

/-- The mutable globals of the program that make up the game state, together
with the local `gameOver` of `main` and the window title written by
`renderText`. -/
structure GameState (α : Type) where
  robotPosition : Vec3 α
  robotDirection : Vec3 α
  objects : List (Vec3 α)
  score : Int
  batteryLife : α
  gameOver : Bool
  title : String

variable {α : Type} [LinearOrderedField α]

/-- Capture radius, the literal `0.6f` of `checkCollisions`. -/
def captureRadius : α := 6 / 10

/-- Constant `robotSpeed = 0.05f`. -/
def robotSpeed : α := 5 / 100

/-- Battery drain per frame, the literal `0.05f` of `batteryLife -= 0.05f`. -/
def batteryRate : α := 5 / 100

/-! ## `checkCollisions` -/

/-- The iterator loop of `checkCollisions`, from iterator position `it`:
at the end of the vector it stops; an element closer than the capture radius
is erased (the iterator then designates the element that followed it) and the
score is incremented; otherwise the iterator advances. -/
def checkCollisionsFrom (robotPosition : Vec3 α) (objects : List (Vec3 α)) (it : Nat)
    (score : Int) : List (Vec3 α) × Int :=
  if h : it < objects.length then
    if Vec3.closer robotPosition (objects.get ⟨it, h⟩) captureRadius then
      checkCollisionsFrom robotPosition (objects.eraseIdx it) it (score + 1)
    else
      checkCollisionsFrom robotPosition objects (it + 1) score
  else
    (objects, score)
termination_by objects.length - it
decreasing_by
  · simp only [List.length_eraseIdx, h, if_true]
    omega
  · omega

/-- Function `checkCollisions()`: the loop started at `objects.begin()`,
writing back the vector and the score. -/
def checkCollisions (st : GameState α) : GameState α :=
  let r := checkCollisionsFrom st.robotPosition st.objects 0 st.score
  { st with objects := r.1, score := r.2 }

/-! ## `generateObjects` -/

/-- Loop of `generateObjects`: iteration `i` draws two values from the random
source (`rand k` is the value of the `k`-th call of `rand()` after the
`srand` of this call, a non-negative `int`), reduces each with `% 18 - 9`,
and pushes `vec3(x, 0.2f, z)` at the back of the vector. -/
def generateObjectsLoop (rand : Nat → Nat) : Nat → Nat → List (Vec3 α) → List (Vec3 α)
  | 0, _, objects => objects
  | n + 1, i, objects =>
    let x : Int := ((rand (2 * i) % 18 : Nat) : Int) - 9
    let z : Int := ((rand (2 * i + 1) % 18 : Nat) : Int) - 9
    generateObjectsLoop rand n (i + 1) (objects ++ [⟨(x : α), 2 / 10, (z : α)⟩])

/-- Function `generateObjects(int count)`: the body of
`for (int i = 0; i < count; ++i)` runs `count` times, and not at all for a
negative `count`. -/
def generateObjects (rand : Nat → Nat) (count : Int) (objects : List (Vec3 α)) :
    List (Vec3 α) :=
  generateObjectsLoop rand count.toNat 0 objects

/-! ## `processInput` -/

/-- Keys reported as pressed by `glfwGetKey` during one frame. -/
structure Keys where
  a : Bool
  d : Bool
  w : Bool
  s : Bool
  r : Bool
deriving DecidableEq, Repr

/-- The product `glm::rotate(glm::mat4(1.0f), angle, vec3(0, 1, 0)) * vec4(v, 0)`
truncated to a `vec3`, where `c` and `s` are the cosine and the sine of
`angle`.  For the axis `(0, 1, 0)` the columns of the matrix of `glm::rotate`
are `(c, 0, -s)`, `(0, 1, 0)` and `(s, 0, c)`. -/
def rotateY (c s : α) (v : Vec3 α) : Vec3 α :=
  ⟨c * v.x + s * v.z, v.y, -s * v.x + c * v.z⟩

/-- The four clamping statements at the end of `processInput`. -/
def clampPosition (p : Vec3 α) : Vec3 α :=
  let p1 : Vec3 α := if p.x < -9 then { p with x := -9 } else p
  let p2 : Vec3 α := if p1.x > 9 then { p1 with x := 9 } else p1
  let p3 : Vec3 α := if p2.z < -9 then { p2 with z := -9 } else p2
  let p4 : Vec3 α := if p3.z > 9 then { p3 with z := 9 } else p3
  p4

/-- Function `processInput`.  The parameters `c` and `s` are the cosine and
sine of `rotationSpeed = glm::radians(1.0f)`; key `D` rotates by
`-rotationSpeed`, whose cosine and sine are `c` and `-s`. -/
def processInput (c s : α) (keys : Keys) (st : GameState α) : GameState α :=
  let st1 := if keys.a then { st with robotDirection := rotateY c s st.robotDirection } else st
  let st2 :=
    if keys.d then { st1 with robotDirection := rotateY c (-s) st1.robotDirection } else st1
  let st3 :=
    if keys.w then
      { st2 with robotPosition := Vec3.add st2.robotPosition (Vec3.smul st2.robotDirection robotSpeed) }
    else st2
  let st4 :=
    if keys.s then
      { st3 with robotPosition := Vec3.sub st3.robotPosition (Vec3.smul st3.robotDirection robotSpeed) }
    else st3
  let st5 := { st4 with robotPosition := clampPosition st4.robotPosition }
  checkCollisions st5

/-! ## Main loop -/

/-- Title set when the battery is empty. -/
def depletedMessage : String := "Пылесос разрядился!"

/-- Title set when no collectible is left. -/
def clearedMessage : String := "Ура, ты все собрал!"

/-- The guarded position update of the main loop: `newPosition` is committed
when its `x` and `z` are strictly within `±9.5`. -/
def advance (st : GameState α) : GameState α :=
  let newPosition := Vec3.add st.robotPosition (Vec3.smul st.robotDirection robotSpeed)
  if newPosition.x > -(95 / 10) ∧ newPosition.x < 95 / 10 ∧
      newPosition.z > -(95 / 10) ∧ newPosition.z < 95 / 10 then
    { st with robotPosition := newPosition }
  else st

/-- Statement `batteryLife -= 0.05f`. -/
def drain (st : GameState α) : GameState α :=
  { st with batteryLife := st.batteryLife - batteryRate }

/-- Statement `if (batteryLife <= 0.0f) { gameOver = true; renderText(...); }`. -/
def checkDepleted (st : GameState α) : GameState α :=
  if st.batteryLife ≤ 0 then { st with gameOver := true, title := depletedMessage } else st

/-- Statement `if (objects.empty()) { gameOver = true; renderText(...); }`. -/
def checkCleared (st : GameState α) : GameState α :=
  if st.objects.isEmpty then { st with gameOver := true, title := clearedMessage } else st

/-- The `if (!gameOver)` branch of the main loop, in program order:
`processInput`, the guarded advance, `checkCollisions`, the battery decrement,
the depleted check, the cleared check. -/
def playingFrame (c s : α) (keys : Keys) (st : GameState α) : GameState α :=
  checkCleared (checkDepleted (drain (checkCollisions (advance (processInput c s keys st)))))

/-- The `else` branch of the main loop: when `R` is pressed the game
restarts, otherwise nothing changes. -/
def gameOverFrame (rand : Nat → Nat) (keys : Keys) (st : GameState α) : GameState α :=
  if keys.r then
    { st with
      gameOver := false
      batteryLife := 100
      score := 0
      objects := generateObjects rand 20 [] }
  else st

/-- One iteration of `while (!glfwWindowShouldClose(window))`.  `rand` is the
random sequence that a call of `generateObjects` in this frame would see. -/
def frame (c s : α) (rand : Nat → Nat) (keys : Keys) (st : GameState α) : GameState α :=
  if st.gameOver then gameOverFrame rand keys st else playingFrame c s keys st

/-- State on entry to the main loop: the initialisers of the globals,
`gameOver = false`, the title given to `glfwCreateWindow`, and the objects of
`generateObjects(20)`. -/
def initialState (rand : Nat → Nat) : GameState α :=
  { robotPosition := ⟨0, 5 / 10, 0⟩
    robotDirection := ⟨0, 0, -1⟩
    objects := generateObjects rand 20 []
    score := 0
    batteryLife := 100
    gameOver := false
    title := "Vacuum Cleaner Simulator" }

/-- Successive iterations of the main loop, one per element of `inputs`
(the random sequence and the keys of that frame). -/
def runFrames (c s : α) (inputs : List ((Nat → Nat) × Keys)) (st : GameState α) : GameState α :=
  inputs.foldl (fun acc i => frame c s i.1 i.2 acc) st

/-- States the main loop can be in at the start of an iteration. -/
inductive Reachable (c s : α) : GameState α → Prop
  | init (rand : Nat → Nat) : Reachable c s (initialState rand)
  | step (rand : Nat → Nat) (keys : Keys) (st : GameState α) :
      Reachable c s st → Reachable c s (frame c s rand keys st)

/-- No key pressed. -/
def noKeys : Keys := ⟨false, false, false, false, false⟩

/-! ## Concrete states and inputs used in examples -/

/-- State that `checkCollisions` empties in one pass: battery at its last
`0.05`, the robot at its start position, one collectible under it. -/
def lastGaspState : GameState ℚ :=
  { robotPosition := ⟨0, 5 / 10, 0⟩
    robotDirection := ⟨0, 0, -1⟩
    objects := [⟨0, 2 / 10, 0⟩]
    score := 19
    batteryLife := 5 / 100
    gameOver := false
    title := "Vacuum Cleaner Simulator" }

/-- A game-over state with an empty battery, the robot away from its start
position and turned away from its start heading. -/
def stalledState : GameState ℚ :=
  { robotPosition := ⟨1, 5 / 10, 2⟩
    robotDirection := ⟨-(4 / 5), 0, -(3 / 5)⟩
    objects := [⟨3, 2 / 10, 4⟩]
    score := 19
    batteryLife := 0
    gameOver := true
    title := depletedMessage }

/-- Only the restart key pressed. -/
def restartKey : Keys := ⟨false, false, false, false, true⟩

/-- Input of a frame in which no key is held. -/
def idleInput : (Nat → Nat) × Keys := (fun _ => 0, noKeys)

/-- Invariant of a run without keys from `initialState (fun _ => 0)`: the
robot stays on the line `x = 0` heading along `-z`, and the twenty
collectibles, all at `(-9, 0.2, -9)`, stay where they are. -/
def IdleInv (st : GameState ℚ) : Prop :=
  st.robotPosition.x = 0 ∧ st.robotDirection = ⟨0, 0, -1⟩ ∧
    st.objects = List.replicate 20 ⟨-9, 2 / 10, -9⟩

/-! ## Machine arithmetic

The definitions above compute in exact arithmetic with an unbounded score.
The test of `checkCollisions` and its counter are modelled a second time as
the machine computes them: `float` operations round to the nearest binary32
value, ties to even, each operation on its own, and `score++` wraps like a
32-bit two's-complement `int`.  A `float` is represented by the rational
number it denotes. -/

namespace F32

/-- Power `2 ^ k` for an integer exponent. -/
def pow2 (k : Int) : ℚ :=
  if 0 ≤ k then ((2 ^ k.toNat : Nat) : ℚ) else 1 / ((2 ^ (-k).toNat : Nat) : ℚ)

/-- Number of binary digits of `n`, by halving at most `fuel` times. -/
def bitLengthAux : Nat → Nat → Nat
  | 0, _ => 0
  | fuel + 1, n => if n = 0 then 0 else bitLengthAux fuel (n / 2) + 1

/-- Number of binary digits of `n` (`Nat.size n`, see `bitLength_eq_size`);
`n` halvings always suffice. -/
def bitLength (n : Nat) : Nat := bitLengthAux n n

/-- Binary exponent of a positive rational `q`: the integer `e` with
`2 ^ e ≤ q < 2 ^ (e + 1)`.  The difference of the bit lengths of numerator
and denominator is `e` or `e + 1`. -/
def ilog2 (q : ℚ) : Int :=
  let e0 : Int := (bitLength q.num.natAbs : Int) - (bitLength q.den : Int)
  if pow2 e0 ≤ q then e0 else e0 - 1

/-- Nearest integer, ties to the even one. -/
def roundHalfEven (q : ℚ) : Int :=
  let f := Rat.floor q
  if q - f < 1 / 2 then f
  else if 1 / 2 < q - f then f + 1
  else if f % 2 = 0 then f else f + 1

/-- Rounding of a real result to binary32: 24 significant bits, nearest value,
ties to even, with gradual underflow below `2 ^ (-126)`.  The exponent is not
bounded above: where the machine overflows to `+∞` the value here is at least
`2 ^ 127`, and either fails every test `< 0.6f`. -/
def round (q : ℚ) : ℚ :=
  if q = 0 then 0
  else
    let k := max (ilog2 (if q < 0 then -q else q) - 23) (-149)
    (roundHalfEven (q / pow2 k) : ℚ) * pow2 k

/-- Rounding step of the square root: `s` is the radicand scaled so that its
root has 24 integer bits and `n` is the integer part of that root; the result
is `n` or `n + 1`, whichever is nearer to the root (ties to even). -/
def sqrtRound (s : ℚ) (n : Nat) : Nat :=
  let h : ℚ := ((n : ℚ) + 1 / 2) * ((n : ℚ) + 1 / 2)
  if s < h then n else if h < s then n + 1 else if n % 2 = 0 then n else n + 1

/-- Correctly rounded binary32 square root, `std::sqrt` on a `float`.  Its
only argument in this program is a sum of squares, so the case `x < 0` (a NaN
on the machine) does not arise. -/
def sqrt (x : ℚ) : ℚ :=
  if x ≤ 0 then 0
  else
    let k := ilog2 x / 2 - 23
    (sqrtRound (x / pow2 (2 * k)) (Nat.sqrt (Rat.floor (x / pow2 (2 * k))).toNat) : ℚ) * pow2 k

end F32

/-- Argument of the square root in `glm::distance(p0, p1)` on `float`
vectors: `glm::length(p1 - p0)` is `sqrt(dot(v, v))` with `v = p1 - p0`, and
`dot` forms the three products and adds them from left to right, every
operation rounded. -/
def dotF32 (p0 p1 : Vec3 ℚ) : ℚ :=
  let vx := F32.round (p1.x - p0.x)
  let vy := F32.round (p1.y - p0.y)
  let vz := F32.round (p1.z - p0.z)
  F32.round (F32.round (F32.round (vx * vx) + F32.round (vy * vy)) + F32.round (vz * vz))

/-- Value of `glm::distance(p0, p1)` on `float` vectors. -/
def distanceF32 (p0 p1 : Vec3 ℚ) : ℚ := F32.sqrt (dotF32 p0 p1)

/-- The literal `0.6f`: the binary32 value nearest to `0.6`. -/
def captureRadiusF32 : ℚ := F32.round (6 / 10)

/-- The test `glm::distance(robotPosition, *it) < 0.6f` as the machine
evaluates it. -/
def closerF32 (robotPosition o : Vec3 ℚ) : Bool :=
  decide (distanceF32 robotPosition o < captureRadiusF32)

/-- Value of a 32-bit two's-complement `int` after an arithmetic result `n`. -/
def wrapInt32 (n : Int) : Int := (n + 2147483648) % 4294967296 - 2147483648

/-- The iterator loop of `checkCollisions`, as `checkCollisionsFrom`, with
the two machine operations passed in: `near o` is the outcome of the test
`glm::distance(robotPosition, o) < 0.6f` and `incr` the effect of `score++`
on the counter. -/
def checkCollisionsFromWith (near : Vec3 ℚ → Bool) (incr : Int → Int)
    (objects : List (Vec3 ℚ)) (it : Nat) (score : Int) : List (Vec3 ℚ) × Int :=
  if h : it < objects.length then
    if near (objects.get ⟨it, h⟩) then
      checkCollisionsFromWith near incr (objects.eraseIdx it) it (incr score)
    else
      checkCollisionsFromWith near incr objects (it + 1) score
  else
    (objects, score)
termination_by objects.length - it
decreasing_by
  · simp only [List.length_eraseIdx, h, if_true]
    omega
  · omega

/-- Function `checkCollisions()` on the machine: the loop started at
`objects.begin()` with the `float` test at the current robot position and the
wrapping `score++`, writing back the vector and the score. -/
def checkCollisionsF32 (st : GameState ℚ) : GameState ℚ :=
  let r := checkCollisionsFromWith (closerF32 st.robotPosition) (fun n => wrapInt32 (n + 1))
    st.objects 0 st.score
  { st with objects := r.1, score := r.2 }

/-- Two collectibles, with binary32 coordinates, just inside the capture
radius of a robot at the origin: their exact distances are below `0.6`, and
both computed distances round to `0.6f`. -/
def roundingState : GameState ℚ :=
  { robotPosition := ⟨0, 0, 0⟩
    robotDirection := ⟨0, 0, -1⟩
    objects := [⟨1 / 2, 0, 5564373 / 16777216⟩, ⟨3 / 8, 0, 3929013 / 8388608⟩]
    score := 0
    batteryLife := 100
    gameOver := false
    title := "Vacuum Cleaner Simulator" }

/-- The scenario of the collision pass on the machine: robot at
`(0, 0.5, 0)`, one collectible at `(0, 0.2f, 0)`, score 0. -/
def scenarioState : GameState ℚ :=
  { robotPosition := ⟨0, 1 / 2, 0⟩
    robotDirection := ⟨0, 0, -1⟩
    objects := [⟨0, F32.round (2 / 10), 0⟩]
    score := 0
    batteryLife := 100
    gameOver := false
    title := "Vacuum Cleaner Simulator" }

theorem checkCollisionsFrom_append (p : Vec3 α) (suf : List (Vec3 α)) :
    ∀ (pre : List (Vec3 α)) (score : Int),
      checkCollisionsFrom p (pre ++ suf) pre.length score =
        (pre ++ suf.filter (fun o => !Vec3.closer p o captureRadius),
          score + ((suf.filter (fun o => Vec3.closer p o captureRadius)).length : Int)) := by
  induction suf with
  | nil =>
    intro pre score
    rw [checkCollisionsFrom]
    simp
  | cons o suf ih =>
    intro pre score
    rw [checkCollisionsFrom]
    have hlt : pre.length < (pre ++ o :: suf).length := by simp
    rw [dif_pos hlt]
    have hget : (pre ++ o :: suf).get ⟨pre.length, hlt⟩ = o := by
      rw [List.get_eq_getElem, List.getElem_append_right (le_refl _)]
      simp
    rw [hget]
    by_cases hc : Vec3.closer p o captureRadius = true
    · rw [if_pos hc]
      have he : (pre ++ o :: suf).eraseIdx pre.length = pre ++ suf := by
        simp [List.eraseIdx_append_of_length_le]
      rw [he, ih pre (score + 1)]
      simp [hc]
      omega
    · rw [if_neg hc]
      have ha : pre ++ o :: suf = (pre ++ [o]) ++ suf := by simp
      have hl : pre.length + 1 = (pre ++ [o]).length := by simp
      rw [ha, hl, ih (pre ++ [o]) score]
      simp [hc]


/-! ## Lemmas on `checkCollisions` -/

theorem checkCollisions_objects (st : GameState α) :
    (checkCollisions st).objects =
      st.objects.filter (fun o => !Vec3.closer st.robotPosition o captureRadius) := by
  have h := checkCollisionsFrom_append st.robotPosition st.objects [] st.score
  simp only [List.nil_append, List.length_nil] at h
  simp [checkCollisions, h]

theorem checkCollisions_score (st : GameState α) :
    (checkCollisions st).score =
      st.score +
        ((st.objects.filter (fun o => Vec3.closer st.robotPosition o captureRadius)).length : Int) := by
  have h := checkCollisionsFrom_append st.robotPosition st.objects [] st.score
  simp only [List.nil_append, List.length_nil] at h
  simp [checkCollisions, h]

theorem distance2_nonneg (a b : Vec3 α) : 0 ≤ Vec3.distance2 a b := by
  unfold Vec3.distance2 Vec3.dot
  exact add_nonneg (add_nonneg (mul_self_nonneg _) (mul_self_nonneg _)) (mul_self_nonneg _)

theorem closer_iff_sqrt (a b : Vec3 ℝ) :
    Vec3.closer a b captureRadius = true ↔ Real.sqrt (Vec3.distance2 a b) < 6 / 10 := by
  have hr : (0 : ℝ) < 6 / 10 := by norm_num
  rw [Real.sqrt_lt' hr]
  simp [Vec3.closer, captureRadius, pow_two]

/-! ## Frame lemmas -/

theorem clampPosition_bounds (p : Vec3 α) :
    -9 ≤ (clampPosition p).x ∧ (clampPosition p).x ≤ 9 ∧
      -9 ≤ (clampPosition p).z ∧ (clampPosition p).z ≤ 9 := by
  unfold clampPosition
  simp only
  split_ifs <;> simp only [] at * <;> refine ⟨?_, ?_, ?_, ?_⟩ <;> linarith

theorem processInput_robotPosition (c s : α) (keys : Keys) (st : GameState α) :
    ∃ p : Vec3 α, (processInput c s keys st).robotPosition = clampPosition p := by
  unfold processInput
  exact ⟨_, rfl⟩

theorem processInput_batteryLife (c s : α) (keys : Keys) (st : GameState α) :
    (processInput c s keys st).batteryLife = st.batteryLife := by
  unfold processInput checkCollisions
  simp only
  split_ifs <;> rfl

theorem advance_batteryLife (st : GameState α) : (advance st).batteryLife = st.batteryLife := by
  unfold advance
  simp only
  split_ifs <;> rfl

theorem advance_objects (st : GameState α) : (advance st).objects = st.objects := by
  unfold advance
  simp only
  split_ifs <;> rfl

theorem advance_robotDirection (st : GameState α) :
    (advance st).robotDirection = st.robotDirection := by
  unfold advance
  simp only
  split_ifs <;> rfl

theorem checkDepleted_objects (st : GameState α) : (checkDepleted st).objects = st.objects := by
  unfold checkDepleted
  split_ifs <;> rfl

theorem checkDepleted_batteryLife (st : GameState α) :
    (checkDepleted st).batteryLife = st.batteryLife := by
  unfold checkDepleted
  split_ifs <;> rfl

theorem checkCleared_objects {β : Type} (st : GameState β) : (checkCleared st).objects = st.objects := by
  unfold checkCleared
  split_ifs <;> rfl

theorem checkCleared_batteryLife {β : Type} (st : GameState β) :
    (checkCleared st).batteryLife = st.batteryLife := by
  unfold checkCleared
  split_ifs <;> rfl

theorem playingFrame_batteryLife (c s : α) (keys : Keys) (st : GameState α) :
    (playingFrame c s keys st).batteryLife = st.batteryLife - batteryRate := by
  unfold playingFrame
  rw [checkCleared_batteryLife, checkDepleted_batteryLife]
  show (checkCollisions (advance (processInput c s keys st))).batteryLife - batteryRate = _
  show (advance (processInput c s keys st)).batteryLife - batteryRate = _
  rw [advance_batteryLife, processInput_batteryLife]

theorem playingFrame_objects (c s : α) (keys : Keys) (st : GameState α) :
    (playingFrame c s keys st).objects =
      (checkCollisions (advance (processInput c s keys st))).objects := by
  unfold playingFrame
  rw [checkCleared_objects, checkDepleted_objects]
  rfl

theorem frame_playing (c s : α) (rand : Nat → Nat) (keys : Keys) (st : GameState α)
    (h : st.gameOver = false) : frame c s rand keys st = playingFrame c s keys st := by
  simp [frame, h]

theorem frame_gameOver (c s : α) (rand : Nat → Nat) (keys : Keys) (st : GameState α)
    (h : st.gameOver = true) : frame c s rand keys st = gameOverFrame rand keys st := by
  simp [frame, h]

theorem processInput_position_bounds (c s : α) (keys : Keys) (st : GameState α) :
    -9 ≤ (processInput c s keys st).robotPosition.x ∧
      (processInput c s keys st).robotPosition.x ≤ 9 ∧
      -9 ≤ (processInput c s keys st).robotPosition.z ∧
      (processInput c s keys st).robotPosition.z ≤ 9 := by
  obtain ⟨p, hp⟩ := processInput_robotPosition c s keys st
  rw [hp]
  exact clampPosition_bounds p

/-- C3: whatever the previous position and heading and whatever keys are held,
the `x` and `z` of the robot position lie in `[-9, 9]` when `processInput`
returns. -/
theorem processInput_position_clamped (c s : α) (keys : Keys) (st : GameState α) :
    -9 ≤ (processInput c s keys st).robotPosition.x ∧
      (processInput c s keys st).robotPosition.x ≤ 9 ∧
      -9 ≤ (processInput c s keys st).robotPosition.z ∧
      (processInput c s keys st).robotPosition.z ≤ 9 := by
  obtain ⟨p, hp⟩ := processInput_robotPosition c s keys st
  rw [hp]
  exact clampPosition_bounds p

/-- C5: a frame of the main loop taken while playing lowers the battery by
exactly `0.05`, whatever keys are held. -/
theorem playing_frame_drains_battery (c s : α) (rand : Nat → Nat) (keys : Keys)
    (st : GameState α) (h : st.gameOver = false) :
    (frame c s rand keys st).batteryLife = st.batteryLife - 5 / 100 := by
  rw [frame_playing c s rand keys st h, playingFrame_batteryLife]
  rfl

/-- Witness of C5 at `lastGaspState` with no key held. -/
theorem playing_frame_drains_battery_witness :
    lastGaspState.gameOver = false ∧
      (frame (1 : ℚ) 0 (fun _ => 0) noKeys lastGaspState).batteryLife =
        lastGaspState.batteryLife - 5 / 100 :=
  ⟨rfl, playing_frame_drains_battery 1 0 (fun _ => 0) noKeys lastGaspState rfl⟩


theorem playingFrame_gameOver_iff (c s : α) (keys : Keys) (st : GameState α)
    (h : st.gameOver = false) :
    (playingFrame c s keys st).gameOver = true ↔
      (playingFrame c s keys st).batteryLife ≤ 0 ∨ (playingFrame c s keys st).objects = [] := by
  have hg : (drain (checkCollisions (advance (processInput c s keys st)))).gameOver = false := by
    show (advance (processInput c s keys st)).gameOver = false
    unfold advance
    simp only
    have : (processInput c s keys st).gameOver = false := by
      unfold processInput checkCollisions
      simp only
      split_ifs <;> exact h
    split_ifs <;> exact this
  rw [playingFrame_batteryLife, playingFrame_objects]
  unfold playingFrame
  generalize hd : drain (checkCollisions (advance (processInput c s keys st))) = d at hg
  have hb : d.batteryLife = st.batteryLife - batteryRate := by
    rw [← hd]
    show (advance (processInput c s keys st)).batteryLife - batteryRate = _
    rw [advance_batteryLife, processInput_batteryLife]
  have ho : d.objects = (checkCollisions (advance (processInput c s keys st))).objects := by
    rw [← hd]; rfl
  rw [← hb, ← ho]
  unfold checkCleared checkDepleted
  by_cases h1 : d.batteryLife ≤ 0 <;> by_cases h2 : d.objects = [] <;>
    simp [h1, h2, hg, List.isEmpty_iff]

/-- C7: after a frame taken while playing, the phase is game over exactly when
the decremented battery is `≤ 0` or the collectible sequence left by the
collision passes of the frame is empty; otherwise the game is still playing.
The battery and the collectibles at the end of the frame are the decremented
battery and the result of the last collision pass. -/
theorem playing_frame_game_over_iff (c s : α) (rand : Nat → Nat) (keys : Keys)
    (st : GameState α) (h : st.gameOver = false) :
    (frame c s rand keys st).batteryLife = st.batteryLife - 5 / 100 ∧
      (frame c s rand keys st).objects =
        (checkCollisions (advance (processInput c s keys st))).objects ∧
      ((frame c s rand keys st).gameOver = true ↔
        (st.batteryLife - 5 / 100 ≤ 0 ∨
          (checkCollisions (advance (processInput c s keys st))).objects = [])) ∧
      (¬ (st.batteryLife - 5 / 100 ≤ 0 ∨
          (checkCollisions (advance (processInput c s keys st))).objects = []) →
        (frame c s rand keys st).gameOver = false) := by
  rw [frame_playing c s rand keys st h]
  have hb : (playingFrame c s keys st).batteryLife = st.batteryLife - 5 / 100 := by
    rw [playingFrame_batteryLife]; rfl
  have ho := playingFrame_objects c s keys st
  have hi := playingFrame_gameOver_iff c s keys st h
  rw [hb, ho] at hi
  refine ⟨hb, ho, hi, ?_⟩
  intro hn
  cases hgo : (playingFrame c s keys st).gameOver with
  | false => rfl
  | true => exact absurd (hi.1 hgo) hn

/-- Witness of C7 at `lastGaspState` with no key held. -/
theorem playing_frame_game_over_iff_witness :
    lastGaspState.gameOver = false ∧
      ((frame (1 : ℚ) 0 (fun _ => 0) noKeys lastGaspState).gameOver = true ↔
        (lastGaspState.batteryLife - 5 / 100 ≤ 0 ∨
          (checkCollisions (advance (processInput 1 0 noKeys lastGaspState))).objects = [])) :=
  ⟨rfl, (playing_frame_game_over_iff 1 0 (fun _ => 0) noKeys lastGaspState rfl).2.2.1⟩


theorem playingFrame_title_of_cleared (c s : α) (keys : Keys) (st : GameState α)
    (ho : (playingFrame c s keys st).objects = []) :
    (playingFrame c s keys st).gameOver = true ∧
      (playingFrame c s keys st).title = clearedMessage := by
  have he : (checkDepleted (drain (checkCollisions (advance (processInput c s keys st))))).objects
      = [] := by
    rw [← checkCleared_objects]; exact ho
  unfold playingFrame checkCleared
  simp [he]

theorem messages_differ : clearedMessage ≠ depletedMessage := by decide

theorem lastGasp_objects :
    (frame (1 : ℚ) 0 (fun _ => 0) noKeys lastGaspState).objects = [] := by
  rw [frame_playing _ _ _ _ _ rfl, playingFrame_objects, checkCollisions_objects, advance_objects]
  have h1 : (processInput (1 : ℚ) 0 noKeys lastGaspState).objects = [] := by
    unfold processInput
    simp only [noKeys, Bool.false_eq_true, if_false]
    rw [checkCollisions_objects]
    simp [lastGaspState, clampPosition, Vec3.closer, Vec3.distance2, Vec3.dot, Vec3.sub,
      captureRadius]
    norm_num
  rw [h1]
  rfl

theorem lastGasp_batteryLife :
    (frame (1 : ℚ) 0 (fun _ => 0) noKeys lastGaspState).batteryLife ≤ 0 := by
  rw [frame_playing _ _ _ _ _ rfl, playingFrame_batteryLife]
  simp [lastGaspState, batteryRate]

/-- C8, counterexample: from `lastGaspState` (battery `0.05`, one collectible
under the robot) with no key held, the frame ends with battery `≤ 0` and no
collectible, and the title is the cleared message, not the depleted one. -/
theorem first_check_does_not_win :
    lastGaspState.gameOver = false ∧
      (frame (1 : ℚ) 0 (fun _ => 0) noKeys lastGaspState).batteryLife ≤ 0 ∧
      (frame (1 : ℚ) 0 (fun _ => 0) noKeys lastGaspState).objects = [] ∧
      (frame (1 : ℚ) 0 (fun _ => 0) noKeys lastGaspState).title = clearedMessage ∧
      (frame (1 : ℚ) 0 (fun _ => 0) noKeys lastGaspState).title ≠ depletedMessage := by
  have ho := lastGasp_objects
  have hf := frame_playing (1 : ℚ) 0 (fun _ => 0) noKeys lastGaspState rfl
  have ht : (frame (1 : ℚ) 0 (fun _ => 0) noKeys lastGaspState).title = clearedMessage := by
    rw [hf] at ho ⊢
    exact (playingFrame_title_of_cleared _ _ _ _ ho).2
  refine ⟨rfl, lastGasp_batteryLife, ho, ht, ?_⟩
  · rw [ht]
    exact messages_differ

/-- C8, amended: in a frame taken while playing that ends with battery `≤ 0`
and no collectible, both checks fire: the depleted check, evaluated first,
sets the depleted message, and the cleared check, evaluated last, replaces it;
the phase is game over and the title at the end of the frame is the cleared
message. -/
theorem last_check_wins (c s : α) (rand : Nat → Nat) (keys : Keys) (st : GameState α)
    (h : st.gameOver = false)
    (hb : (frame c s rand keys st).batteryLife ≤ 0)
    (ho : (frame c s rand keys st).objects = []) :
    (checkDepleted (drain (checkCollisions (advance (processInput c s keys st))))).title =
        depletedMessage ∧
      (frame c s rand keys st).gameOver = true ∧
      (frame c s rand keys st).title = clearedMessage ∧
      (frame c s rand keys st).title ≠ depletedMessage := by
  rw [frame_playing c s rand keys st h] at hb ho ⊢
  obtain ⟨h1, h2⟩ := playingFrame_title_of_cleared c s keys st ho
  refine ⟨?_, h1, h2, ?_⟩
  · have hd : (drain (checkCollisions (advance (processInput c s keys st)))).batteryLife ≤ 0 := by
      rw [← checkDepleted_batteryLife, ← checkCleared_batteryLife]
      exact hb
    unfold checkDepleted
    rw [if_pos hd]
  · rw [h2]
    exact messages_differ

/-- Witness of the amended C8 at `lastGaspState` with no key held. -/
theorem last_check_wins_witness :
    lastGaspState.gameOver = false ∧
      (frame (1 : ℚ) 0 (fun _ => 0) noKeys lastGaspState).batteryLife ≤ 0 ∧
      (frame (1 : ℚ) 0 (fun _ => 0) noKeys lastGaspState).objects = [] ∧
      (frame (1 : ℚ) 0 (fun _ => 0) noKeys lastGaspState).title = clearedMessage :=
  ⟨rfl, lastGasp_batteryLife, lastGasp_objects,
    (last_check_wins 1 0 (fun _ => 0) noKeys lastGaspState rfl lastGasp_batteryLife
      lastGasp_objects).2.2.1⟩

/-! ## Restart -/

theorem generateObjectsLoop_length (rand : Nat → Nat) (n : Nat) :
    ∀ (i : Nat) (objects : List (Vec3 α)),
      (generateObjectsLoop rand n i objects).length = objects.length + n := by
  induction n with
  | zero => intro i objects; simp [generateObjectsLoop]
  | succ n ih =>
    intro i objects
    simp only [generateObjectsLoop]
    rw [ih]
    simp
    omega

/-- C9: in any game-over state, a frame with the restart key held sets the
battery to 100, the score to 0, the collectible sequence to one of length
exactly 20, and the phase to playing. -/
theorem restart_resets_game (c s : α) (rand : Nat → Nat) (keys : Keys) (st : GameState α)
    (hg : st.gameOver = true) (hr : keys.r = true) :
    (frame c s rand keys st).batteryLife = 100 ∧
      (frame c s rand keys st).score = 0 ∧
      (frame c s rand keys st).objects.length = 20 ∧
      (frame c s rand keys st).gameOver = false := by
  rw [frame_gameOver c s rand keys st hg]
  simp [gameOverFrame, hr, generateObjects, generateObjectsLoop_length]

/-- Witness of C9 at `stalledState` with only `R` held. -/
theorem restart_resets_game_witness :
    stalledState.gameOver = true ∧ restartKey.r = true ∧
      (frame (1 : ℚ) 0 (fun k => 7 * k) restartKey stalledState).objects.length = 20 :=
  ⟨rfl, rfl, (restart_resets_game 1 0 (fun k => 7 * k) restartKey stalledState rfl rfl).2.2.1⟩

/-- C10, counterexample: from the game-over state `stalledState`, a frame with
`R` held leaves the robot at `(1, 0.5, 2)` with heading `(-0.8, 0, -0.6)`,
neither of which is the initial value. -/
theorem restart_keeps_pose_example :
    stalledState.gameOver = true ∧ restartKey.r = true ∧
      (frame (1 : ℚ) 0 (fun _ => 0) restartKey stalledState).robotPosition ≠ ⟨0, 5 / 10, 0⟩ ∧
      (frame (1 : ℚ) 0 (fun _ => 0) restartKey stalledState).robotDirection ≠ ⟨0, 0, -1⟩ := by
  refine ⟨rfl, rfl, ?_, ?_⟩
  · simp [frame, gameOverFrame, stalledState, restartKey]
  · simp [frame, gameOverFrame, stalledState, restartKey]

/-- C10, amended: in any game-over state, a frame with the restart key held
leaves the robot position and the robot heading as they were. -/
theorem restart_keeps_pose (c s : α) (rand : Nat → Nat) (keys : Keys) (st : GameState α)
    (hg : st.gameOver = true) (hr : keys.r = true) :
    (frame c s rand keys st).robotPosition = st.robotPosition ∧
      (frame c s rand keys st).robotDirection = st.robotDirection := by
  rw [frame_gameOver c s rand keys st hg]
  simp [gameOverFrame, hr]

/-- Witness of the amended C10 at `stalledState` with only `R` held. -/
theorem restart_keeps_pose_witness :
    stalledState.gameOver = true ∧ restartKey.r = true ∧
      (frame (1 : ℚ) 0 (fun _ => 0) restartKey stalledState).robotPosition = ⟨1, 5 / 10, 2⟩ :=
  ⟨rfl, rfl, (restart_keeps_pose 1 0 (fun _ => 0) restartKey stalledState rfl rfl).1⟩


/-! ## Runs of frames -/

theorem runFrames_append (c s : α) (xs ys : List ((Nat → Nat) × Keys)) (st : GameState α) :
    runFrames c s (xs ++ ys) st = runFrames c s ys (runFrames c s xs st) := by
  simp [runFrames, List.foldl_append]

theorem runFrames_take_succ (c s : α) (inputs : List ((Nat → Nat) × Keys)) (st : GameState α)
    (k : Nat) (hk : k < inputs.length) :
    runFrames c s (inputs.take (k + 1)) st =
      frame c s (inputs.get ⟨k, hk⟩).1 (inputs.get ⟨k, hk⟩).2
        (runFrames c s (inputs.take k) st) := by
  rw [List.take_succ, runFrames_append, List.getElem?_eq_getElem hk]
  rfl

theorem playingFrame_title_of_depleted (c s : α) (keys : Keys) (st : GameState α)
    (hb : (playingFrame c s keys st).batteryLife ≤ 0)
    (ho : (playingFrame c s keys st).objects ≠ []) :
    (playingFrame c s keys st).title = depletedMessage := by
  have hd : (drain (checkCollisions (advance (processInput c s keys st)))).batteryLife ≤ 0 := by
    rw [← checkDepleted_batteryLife, ← checkCleared_batteryLife]
    exact hb
  have he : (checkDepleted (drain (checkCollisions (advance (processInput c s keys st))))).objects
      ≠ [] := by
    rw [← checkCleared_objects]; exact ho
  unfold playingFrame checkCleared
  rw [if_neg (by simpa [List.isEmpty_iff] using he)]
  unfold checkDepleted
  rw [if_pos hd]

theorem run_playing_prefix (c s : α) (inputs : List ((Nat → Nat) × Keys)) (st : GameState α)
    (hb : st.batteryLife = 100) (hp : st.gameOver = false)
    (hlen : 2000 ≤ inputs.length)
    (hobj : ∀ k : Nat, 1 ≤ k → k ≤ 2000 → (runFrames c s (inputs.take k) st).objects ≠ []) :
    ∀ k : Nat, k < 2000 →
      (runFrames c s (inputs.take k) st).gameOver = false ∧
        (runFrames c s (inputs.take k) st).batteryLife = 100 - (k : α) * (5 / 100) := by
  intro k
  induction k with
  | zero =>
    intro _
    simp [runFrames, hp, hb]
  | succ k ih =>
    intro hk
    obtain ⟨hg, hbat⟩ := ih (by omega)
    have hklen : k < inputs.length := by omega
    have hstep := runFrames_take_succ c s inputs st k hklen
    have ho := hobj (k + 1) (by omega) (by omega)
    rw [hstep, frame_playing _ _ _ _ _ hg] at ho ⊢
    have hbat2 : (playingFrame c s (inputs.get ⟨k, hklen⟩).2
        (runFrames c s (inputs.take k) st)).batteryLife = 100 - ((k + 1 : Nat) : α) * (5 / 100) := by
      rw [playingFrame_batteryLife, hbat]
      simp only [batteryRate]
      push_cast
      ring
    refine ⟨?_, hbat2⟩
    have hiff := playingFrame_gameOver_iff c s (inputs.get ⟨k, hklen⟩).2 _ hg
    cases hgo : (playingFrame c s (inputs.get ⟨k, hklen⟩).2
        (runFrames c s (inputs.take k) st)).gameOver with
    | false => rfl
    | true =>
      exfalso
      rcases hiff.1 hgo with h1 | h1
      · rw [hbat2] at h1
        have hk2 : ((k + 1 : Nat) : α) ≤ 1999 := by exact_mod_cast Nat.le_of_lt_succ hk
        linarith
      · exact ho h1


/-- C6: from battery 100 while playing, along any run in which the
collectible sequence is never empty after a frame, the first 1999 frames leave
the game playing, and after the 2000th frame the battery is `≤ 0`, the phase
is game over and the title is the depleted message. -/
theorem battery_runs_out_after_2000_frames (c s : α) (inputs : List ((Nat → Nat) × Keys))
    (st : GameState α) (hb : st.batteryLife = 100) (hp : st.gameOver = false)
    (hlen : 2000 ≤ inputs.length)
    (hobj : ∀ k : Nat, 1 ≤ k → k ≤ 2000 → (runFrames c s (inputs.take k) st).objects ≠ []) :
    (∀ k : Nat, k < 2000 → (runFrames c s (inputs.take k) st).gameOver = false) ∧
      (runFrames c s (inputs.take 2000) st).batteryLife ≤ 0 ∧
      (runFrames c s (inputs.take 2000) st).gameOver = true ∧
      (runFrames c s (inputs.take 2000) st).title = depletedMessage := by
  have hpre := run_playing_prefix c s inputs st hb hp hlen hobj
  refine ⟨fun k hk => (hpre k hk).1, ?_⟩
  obtain ⟨hg, hbat⟩ := hpre 1999 (by omega)
  have hklen : 1999 < inputs.length := by omega
  have hstep := runFrames_take_succ c s inputs st 1999 hklen
  have ho := hobj 2000 (by omega) (by omega)
  rw [hstep, frame_playing _ _ _ _ _ hg] at ho ⊢
  have hbat2 : (playingFrame c s (inputs.get ⟨1999, hklen⟩).2
      (runFrames c s (inputs.take 1999) st)).batteryLife = 0 := by
    rw [playingFrame_batteryLife, hbat]
    simp only [batteryRate]
    push_cast
    ring
  have hiff := playingFrame_gameOver_iff c s (inputs.get ⟨1999, hklen⟩).2 _ hg
  exact ⟨le_of_eq hbat2, hiff.2 (Or.inl (le_of_eq hbat2)),
    playingFrame_title_of_depleted _ _ _ _ (le_of_eq hbat2) ho⟩


/-! ## The idle run -/

theorem clampPosition_of_mem (p : Vec3 α) (hx1 : -9 ≤ p.x) (hx2 : p.x ≤ 9) (hz1 : -9 ≤ p.z)
    (hz2 : p.z ≤ 9) : clampPosition p = p := by
  unfold clampPosition
  simp only
  rw [if_neg (not_lt.2 hx1), if_neg (not_lt.2 hx2), if_neg (not_lt.2 hz1), if_neg (not_lt.2 hz2)]

theorem clampPosition_x (p : Vec3 α) (hx1 : -9 ≤ p.x) (hx2 : p.x ≤ 9) :
    (clampPosition p).x = p.x := by
  unfold clampPosition
  simp only
  rw [if_neg (not_lt.2 hx1), if_neg (not_lt.2 hx2)]
  split_ifs <;> rfl

theorem processInput_noKeys (c s : α) (st : GameState α) :
    processInput c s noKeys st =
      checkCollisions { st with robotPosition := clampPosition st.robotPosition } := by
  simp [processInput, noKeys]

theorem checkDepleted_robotPosition (st : GameState α) :
    (checkDepleted st).robotPosition = st.robotPosition := by
  unfold checkDepleted
  split_ifs <;> rfl

theorem checkDepleted_robotDirection (st : GameState α) :
    (checkDepleted st).robotDirection = st.robotDirection := by
  unfold checkDepleted
  split_ifs <;> rfl

theorem checkCleared_robotPosition {β : Type} (st : GameState β) :
    (checkCleared st).robotPosition = st.robotPosition := by
  unfold checkCleared
  split_ifs <;> rfl

theorem checkCleared_robotDirection {β : Type} (st : GameState β) :
    (checkCleared st).robotDirection = st.robotDirection := by
  unfold checkCleared
  split_ifs <;> rfl

theorem playingFrame_robotPosition (c s : α) (keys : Keys) (st : GameState α) :
    (playingFrame c s keys st).robotPosition = (advance (processInput c s keys st)).robotPosition := by
  unfold playingFrame
  rw [checkCleared_robotPosition, checkDepleted_robotPosition]
  rfl

theorem playingFrame_robotDirection (c s : α) (keys : Keys) (st : GameState α) :
    (playingFrame c s keys st).robotDirection = (processInput c s keys st).robotDirection := by
  unfold playingFrame
  rw [checkCleared_robotDirection, checkDepleted_robotDirection]
  show (advance (processInput c s keys st)).robotDirection = _
  rw [advance_robotDirection]

theorem initial_objects_idle :
    (initialState (fun _ => 0) : GameState ℚ).objects = List.replicate 20 ⟨-9, 2 / 10, -9⟩ := by
  simp [initialState, generateObjects, generateObjectsLoop, List.replicate]

theorem checkCollisions_far_corner (st : GameState ℚ) (hx : st.robotPosition.x = 0)
    (ho : st.objects = List.replicate 20 ⟨-9, 2 / 10, -9⟩) :
    (checkCollisions st).objects = List.replicate 20 ⟨-9, 2 / 10, -9⟩ := by
  rw [checkCollisions_objects, ho, List.filter_eq_self]
  intro o hmem
  rw [List.eq_of_mem_replicate hmem]
  have h1 : ¬ Vec3.distance2 st.robotPosition (⟨-9, 2 / 10, -9⟩ : Vec3 ℚ) <
      captureRadius * captureRadius := by
    simp only [Vec3.distance2, Vec3.dot, Vec3.sub, captureRadius, hx, not_lt]
    nlinarith [mul_self_nonneg (2 / 10 - st.robotPosition.y),
      mul_self_nonneg (-9 - st.robotPosition.z)]
  simp [Vec3.closer, h1]


theorem processInput_idle (c s : ℚ) (st : GameState ℚ) (hinv : IdleInv st) :
    IdleInv (processInput c s noKeys st) ∧
      (processInput c s noKeys st).robotPosition = clampPosition st.robotPosition := by
  obtain ⟨hx, hd, ho⟩ := hinv
  rw [processInput_noKeys]
  have hcx : (clampPosition st.robotPosition).x = 0 := by
    rw [clampPosition_x _ (by rw [hx]; norm_num) (by rw [hx]; norm_num), hx]
  refine ⟨⟨hcx, hd, ?_⟩, rfl⟩
  exact checkCollisions_far_corner _ hcx ho

theorem advance_idle (st : GameState ℚ) (hinv : IdleInv st) :
    IdleInv (advance st) ∧
      (-9 ≤ st.robotPosition.z → st.robotPosition.z ≤ 9 →
        (advance st).robotPosition.z = st.robotPosition.z - 5 / 100) := by
  obtain ⟨hx, hd, ho⟩ := hinv
  have hnx : (Vec3.add st.robotPosition (Vec3.smul st.robotDirection robotSpeed)).x = 0 := by
    simp [Vec3.add, Vec3.smul, hx, hd]
  have hnz : (Vec3.add st.robotPosition (Vec3.smul st.robotDirection robotSpeed)).z =
      st.robotPosition.z - 5 / 100 := by
    simp [Vec3.add, Vec3.smul, hd, robotSpeed]
    ring
  refine ⟨⟨?_, ?_, ?_⟩, ?_⟩
  · unfold advance
    simp only
    split_ifs
    · exact hnx
    · exact hx
  · rw [advance_robotDirection, hd]
  · rw [advance_objects, ho]
  · intro hz hz2
    unfold advance
    simp only
    split_ifs with hc
    · exact hnz
    · exfalso
      apply hc
      rw [hnx, hnz]
      exact ⟨by norm_num, by norm_num, by linarith, by linarith⟩


theorem playingFrame_idle (c s : ℚ) (st : GameState ℚ) (hinv : IdleInv st) :
    IdleInv (playingFrame c s noKeys st) ∧
      (-9 ≤ st.robotPosition.z → st.robotPosition.z ≤ 9 →
        (playingFrame c s noKeys st).robotPosition.z = st.robotPosition.z - 5 / 100) := by
  obtain ⟨hpi, hpos⟩ := processInput_idle c s st hinv
  obtain ⟨hadv, hz⟩ := advance_idle _ hpi
  refine ⟨⟨?_, ?_, ?_⟩, ?_⟩
  · rw [playingFrame_robotPosition]
    exact hadv.1
  · rw [playingFrame_robotDirection]
    exact hpi.2.1
  · rw [playingFrame_objects]
    exact checkCollisions_far_corner _ hadv.1 hadv.2.2
  · intro h1 h2
    have hcl : clampPosition st.robotPosition = st.robotPosition :=
      clampPosition_of_mem _ (by rw [hinv.1]; norm_num) (by rw [hinv.1]; norm_num) h1 h2
    rw [hpos, hcl] at hz
    rw [playingFrame_robotPosition, hz h1 h2]

theorem frame_idle (c s : ℚ) (rand : Nat → Nat) (st : GameState ℚ) (hinv : IdleInv st) :
    IdleInv (frame c s rand noKeys st) := by
  cases hg : st.gameOver with
  | false =>
    rw [frame_playing _ _ _ _ _ hg]
    exact (playingFrame_idle c s st hinv).1
  | true =>
    rw [frame_gameOver _ _ _ _ _ hg]
    simpa [gameOverFrame, noKeys] using hinv

theorem runFrames_idle (c s : ℚ) (n : Nat) :
    ∀ st : GameState ℚ, IdleInv st → IdleInv (runFrames c s (List.replicate n idleInput) st) := by
  induction n with
  | zero => intro st h; simpa [runFrames] using h
  | succ n ih =>
    intro st h
    rw [List.replicate_succ]
    exact ih _ (frame_idle c s _ st h)

theorem initialState_idle : IdleInv (initialState (fun _ => 0) : GameState ℚ) :=
  ⟨rfl, rfl, initial_objects_idle⟩

/-- After `k ≤ 181` frames without keys from the initial state the game is
still playing and the robot has drifted to `z = -k / 20`. -/
theorem idle_drift (k : Nat) (hk : k ≤ 181) :
    (runFrames (1 : ℚ) 0 (List.replicate k idleInput) (initialState (fun _ => 0))).gameOver = false ∧
      (runFrames (1 : ℚ) 0 (List.replicate k idleInput)
        (initialState (fun _ => 0))).batteryLife = 100 - (k : ℚ) * (5 / 100) ∧
      (runFrames (1 : ℚ) 0 (List.replicate k idleInput)
        (initialState (fun _ => 0))).robotPosition.z = -((k : ℚ) * (5 / 100)) := by
  induction k with
  | zero => simp [runFrames, initialState]
  | succ k ih =>
    obtain ⟨hg, hb, hz⟩ := ih (by omega)
    have hinv := runFrames_idle 1 0 k _ initialState_idle
    have hrun : runFrames (1 : ℚ) 0 (List.replicate (k + 1) idleInput) (initialState (fun _ => 0)) =
        frame 1 0 (fun _ => 0) noKeys
          (runFrames 1 0 (List.replicate k idleInput) (initialState (fun _ => 0))) := by
      rw [List.replicate_succ', runFrames_append]
      rfl
    rw [hrun, frame_playing _ _ _ _ _ hg]
    generalize runFrames (1 : ℚ) 0 (List.replicate k idleInput) (initialState (fun _ => 0)) = st
      at hg hb hz hinv
    have hk2 : (k : ℚ) ≤ 180 := by exact_mod_cast Nat.le_of_succ_le_succ hk
    obtain ⟨hinv2, hz2⟩ := playingFrame_idle 1 0 st hinv
    have hbat : (playingFrame (1 : ℚ) 0 noKeys st).batteryLife =
        100 - ((k + 1 : Nat) : ℚ) * (5 / 100) := by
      rw [playingFrame_batteryLife, hb]
      simp only [batteryRate]
      push_cast
      ring
    refine ⟨?_, hbat, ?_⟩
    · have hiff := playingFrame_gameOver_iff (1 : ℚ) 0 noKeys st hg
      cases hgo : (playingFrame (1 : ℚ) 0 noKeys st).gameOver with
      | false => rfl
      | true =>
        exfalso
        rcases hiff.1 hgo with h1 | h1
        · rw [hbat] at h1
          push_cast at h1
          linarith
        · rw [hinv2.2.2] at h1
          simp [List.replicate] at h1
    · rw [hz2 (by rw [hz]; linarith) (by rw [hz]; linarith [(Nat.cast_nonneg k : (0 : ℚ) ≤ (k : ℚ))]), hz]
      push_cast
      ring


theorem reachable_runFrames (c s : α) (inputs : List ((Nat → Nat) × Keys)) :
    ∀ st : GameState α, Reachable c s st → Reachable c s (runFrames c s inputs st) := by
  induction inputs with
  | nil => intro st h; simpa [runFrames] using h
  | cons i inputs ih =>
    intro st h
    exact ih _ (Reachable.step i.1 i.2 st h)

theorem advance_within_guard (st : GameState α)
    (hx1 : -9 ≤ st.robotPosition.x) (hx2 : st.robotPosition.x ≤ 9)
    (hz1 : -9 ≤ st.robotPosition.z) (hz2 : st.robotPosition.z ≤ 9) :
    -(95 / 10) < (advance st).robotPosition.x ∧ (advance st).robotPosition.x < 95 / 10 ∧
      -(95 / 10) < (advance st).robotPosition.z ∧ (advance st).robotPosition.z < 95 / 10 := by
  unfold advance
  simp only
  split_ifs with hc
  · exact ⟨hc.1, hc.2.1, hc.2.2.1, hc.2.2.2⟩
  · exact ⟨by linarith, by linarith, by linarith, by linarith⟩

/-- C4, counterexample: 181 frames without keys from the initial state (all
collectibles in the corner `(-9, 0.2, -9)`) are all taken while playing and
leave the robot at `z = -9.05`, outside `[-9, 9]`. -/
theorem idle_robot_leaves_clamp_range :
    Reachable (1 : ℚ) 0
        (runFrames 1 0 (List.replicate 181 idleInput) (initialState (fun _ => 0))) ∧
      (runFrames (1 : ℚ) 0 (List.replicate 181 idleInput)
        (initialState (fun _ => 0))).gameOver = false ∧
      (runFrames (1 : ℚ) 0 (List.replicate 181 idleInput)
        (initialState (fun _ => 0))).robotPosition.z = -(905 / 100) ∧
      ¬ (-9 ≤ (runFrames (1 : ℚ) 0 (List.replicate 181 idleInput)
        (initialState (fun _ => 0))).robotPosition.z) := by
  obtain ⟨hg, _, hz⟩ := idle_drift 181 (le_refl _)
  have hz2 : (runFrames (1 : ℚ) 0 (List.replicate 181 idleInput)
      (initialState (fun _ => 0))).robotPosition.z = -(905 / 100) := by
    rw [hz]; norm_num
  refine ⟨reachable_runFrames _ _ _ _ (Reachable.init _), hg, hz2, ?_⟩
  rw [hz2]
  norm_num

/-- C4, amended: in every state reachable from the initial state through
frames of the main loop, the `x` and `z` of the robot position lie strictly
between `-9.5` and `9.5`, the bounds of the guard on the main loop's own
position update, whatever the heading. -/
theorem reachable_position_within_guard (c s : α) (st : GameState α) (h : Reachable c s st) :
    -(95 / 10) < st.robotPosition.x ∧ st.robotPosition.x < 95 / 10 ∧
      -(95 / 10) < st.robotPosition.z ∧ st.robotPosition.z < 95 / 10 := by
  induction h with
  | init rand =>
    simp only [initialState]
    exact ⟨by norm_num, by norm_num, by norm_num, by norm_num⟩
  | step rand keys st _ ih =>
    cases hg : st.gameOver with
    | true =>
      rw [frame_gameOver _ _ _ _ _ hg]
      unfold gameOverFrame
      split_ifs <;> exact ih
    | false =>
      rw [frame_playing _ _ _ _ _ hg, playingFrame_robotPosition]
      obtain ⟨h1, h2, h3, h4⟩ := processInput_position_bounds c s keys st
      exact advance_within_guard _ h1 h2 h3 h4

/-- Witness of the amended C4 at the state after one frame without keys. -/
theorem reachable_position_within_guard_witness :
    Reachable (1 : ℚ) 0 (frame 1 0 (fun _ => 0) noKeys (initialState (fun _ => 0))) ∧
      -(95 / 10) < (frame (1 : ℚ) 0 (fun _ => 0) noKeys (initialState (fun _ => 0))).robotPosition.z :=
  ⟨Reachable.step _ _ _ (Reachable.init _),
    (reachable_position_within_guard 1 0 _ (Reachable.step _ _ _ (Reachable.init _))).2.2.1⟩

/-- Witness of C6: the run of 2000 frames without keys from the initial state
whose collectibles all lie in the corner `(-9, 0.2, -9)`. -/
theorem battery_runs_out_after_2000_frames_witness :
    (initialState (fun _ => 0) : GameState ℚ).batteryLife = 100 ∧
      (initialState (fun _ => 0) : GameState ℚ).gameOver = false ∧
      (runFrames (1 : ℚ) 0 ((List.replicate 2000 idleInput).take 2000)
        (initialState (fun _ => 0))).gameOver = true ∧
      (runFrames (1 : ℚ) 0 ((List.replicate 2000 idleInput).take 2000)
        (initialState (fun _ => 0))).title = depletedMessage :=
  ⟨rfl, rfl,
    (battery_runs_out_after_2000_frames 1 0 (List.replicate 2000 idleInput)
      (initialState (fun _ => 0)) rfl rfl (by rw [List.length_replicate])
      (by
        intro k _ _
        rw [List.take_replicate, (runFrames_idle 1 0 _ _ initialState_idle).2.2]
        simp [List.replicate])).2.2⟩


/-! ## Game over without restart -/

/-- C11: in any game-over state, a frame in which `R` is not held leaves the
whole state as it was, whatever other keys are held: battery, score,
collectibles, robot position, robot heading and phase are unchanged, so the
battery does not decrease. -/
theorem game_over_frame_without_restart_is_identity (c s : α) (rand : Nat → Nat) (keys : Keys)
    (st : GameState α) (hg : st.gameOver = true) (hr : keys.r = false) :
    frame c s rand keys st = st ∧
      (frame c s rand keys st).batteryLife = st.batteryLife ∧
      (frame c s rand keys st).score = st.score ∧
      (frame c s rand keys st).objects = st.objects ∧
      (frame c s rand keys st).robotPosition = st.robotPosition ∧
      (frame c s rand keys st).robotDirection = st.robotDirection ∧
      (frame c s rand keys st).gameOver = true := by
  have h : frame c s rand keys st = st := by
    rw [frame_gameOver c s rand keys st hg]
    simp [gameOverFrame, hr]
  rw [h]
  exact ⟨rfl, rfl, rfl, rfl, rfl, rfl, hg⟩

/-- Witness of C11 at `stalledState` with the four directional keys held. -/
theorem game_over_frame_without_restart_is_identity_witness :
    stalledState.gameOver = true ∧
      frame (3 / 5 : ℚ) (4 / 5) (fun k => 7 * k) ⟨true, true, true, true, false⟩ stalledState =
        stalledState :=
  ⟨rfl,
    (game_over_frame_without_restart_is_identity (3 / 5) (4 / 5) (fun k => 7 * k)
      ⟨true, true, true, true, false⟩ stalledState rfl rfl).1⟩

/-! ## Generated collectibles -/

theorem generateObjectsLoop_spec (rand : Nat → Nat) (n : Nat) :
    ∀ (i : Nat) (objects : List (Vec3 α)),
      ∃ fresh : List (Vec3 α),
        generateObjectsLoop rand n i objects = objects ++ fresh ∧ fresh.length = n ∧
          ∀ o ∈ fresh, o.y = 2 / 10 ∧
            (∃ a : Int, -9 ≤ a ∧ a ≤ 8 ∧ o.x = (a : α)) ∧
            (∃ b : Int, -9 ≤ b ∧ b ≤ 8 ∧ o.z = (b : α)) := by
  induction n with
  | zero =>
    intro i objects
    exact ⟨[], by simp [generateObjectsLoop], rfl, by simp⟩
  | succ n ih =>
    intro i objects
    obtain ⟨fresh, h1, h2, h3⟩ := ih (i + 1)
      (objects ++ [⟨((((rand (2 * i) % 18 : Nat) : Int) - 9 : Int) : α), 2 / 10,
        ((((rand (2 * i + 1) % 18 : Nat) : Int) - 9 : Int) : α)⟩])
    refine ⟨⟨((((rand (2 * i) % 18 : Nat) : Int) - 9 : Int) : α), 2 / 10,
        ((((rand (2 * i + 1) % 18 : Nat) : Int) - 9 : Int) : α)⟩ :: fresh, ?_, ?_, ?_⟩
    · simp only [generateObjectsLoop]
      rw [h1]
      simp
    · simp [h2]
    · intro o ho
      rcases List.mem_cons.1 ho with h | h
      · subst h
        refine ⟨rfl, ⟨_, ?_, ?_, rfl⟩, ⟨_, ?_, ?_, rfl⟩⟩ <;> omega
      · exact h3 o h

/-- C12: for every count `n ≥ 0` and every random sequence,
`generateObjects(n)` leaves the existing collectibles in place and appends
exactly `n` new ones, each at height `0.2` with `x` and `z` integers in
`[-9, 8]`; on an empty sequence the result has length exactly `n`, and
length 20 for `n = 20`. -/
theorem generateObjects_appends_grid_points (rand : Nat → Nat) (n : Nat)
    (objects : List (Vec3 α)) :
    (∃ fresh : List (Vec3 α),
      generateObjects rand (n : Int) objects = objects ++ fresh ∧ fresh.length = n ∧
        ∀ o ∈ fresh, o.y = 2 / 10 ∧
          (∃ a : Int, -9 ≤ a ∧ a ≤ 8 ∧ o.x = (a : α)) ∧
          (∃ b : Int, -9 ≤ b ∧ b ≤ 8 ∧ o.z = (b : α))) ∧
      (generateObjects rand (n : Int) ([] : List (Vec3 α))).length = n ∧
      (∀ o ∈ generateObjects rand (n : Int) ([] : List (Vec3 α)), o.y = 2 / 10 ∧
          (∃ a : Int, -9 ≤ a ∧ a ≤ 8 ∧ o.x = (a : α)) ∧
          (∃ b : Int, -9 ≤ b ∧ b ≤ 8 ∧ o.z = (b : α))) ∧
      (generateObjects rand 20 ([] : List (Vec3 α))).length = 20 := by
  refine ⟨?_, ?_, ?_, ?_⟩
  · simpa [generateObjects] using generateObjectsLoop_spec rand n 0 objects
  · simp [generateObjects, generateObjectsLoop_length]
  · obtain ⟨fresh, h1, _, h3⟩ := generateObjectsLoop_spec rand n 0 ([] : List (Vec3 α))
    intro o ho
    have : generateObjects rand (n : Int) ([] : List (Vec3 α)) = fresh := by
      simpa [generateObjects] using h1
    rw [this] at ho
    exact h3 o ho
  · simp [generateObjects, generateObjectsLoop_length]

/-! ## Idempotence of the collision pass -/

theorem filter_closer_of_filter_far (p : Vec3 α) (l : List (Vec3 α)) :
    (l.filter (fun o => !Vec3.closer p o captureRadius)).filter
        (fun o => Vec3.closer p o captureRadius) = [] := by
  rw [List.filter_eq_nil_iff]
  intro o ho
  have := (List.mem_filter.1 ho).2
  simpa using this

/-- C13: for a fixed robot position, a second `checkCollisions` pass changes
nothing: the state after two passes is the state after one, so the
collectible sequence and the score are those of the first pass. -/
theorem checkCollisions_idempotent (st : GameState α) :
    checkCollisions (checkCollisions st) = checkCollisions st ∧
      (checkCollisions (checkCollisions st)).objects = (checkCollisions st).objects ∧
      (checkCollisions (checkCollisions st)).score = (checkCollisions st).score := by
  have hp : (checkCollisions st).robotPosition = st.robotPosition := rfl
  have ho : (checkCollisions (checkCollisions st)).objects = (checkCollisions st).objects := by
    rw [checkCollisions_objects (checkCollisions st), hp, checkCollisions_objects st,
      List.filter_filter]
    congr 1
    funext o
    exact Bool.and_self _
  have hs : (checkCollisions (checkCollisions st)).score = (checkCollisions st).score := by
    rw [checkCollisions_score (checkCollisions st), hp, checkCollisions_objects st,
      filter_closer_of_filter_far]
    simp
  refine ⟨?_, ho, hs⟩
  have h1 : checkCollisions (checkCollisions st) =
      { checkCollisions st with
        objects := (checkCollisions (checkCollisions st)).objects
        score := (checkCollisions (checkCollisions st)).score } := rfl
  rw [h1, ho, hs]


/-! ## Heading -/

theorem rotateY_dot (c s : α) (hc : c ^ 2 + s ^ 2 = 1) (v : Vec3 α) :
    Vec3.dot (rotateY c s v) (rotateY c s v) = Vec3.dot v v := by
  simp only [rotateY, Vec3.dot]
  linear_combination (v.x * v.x + v.z * v.z) * hc

theorem neg_sin_sq (c s : α) (hc : c ^ 2 + s ^ 2 = 1) : c ^ 2 + (-s) ^ 2 = 1 := by
  rw [neg_sq]; exact hc

theorem processInput_robotDirection (c s : α) (keys : Keys) (st : GameState α) :
    (processInput c s keys st).robotDirection =
      (if keys.d then rotateY c (-s) (if keys.a then rotateY c s st.robotDirection
          else st.robotDirection)
        else (if keys.a then rotateY c s st.robotDirection else st.robotDirection)) := by
  unfold processInput checkCollisions
  simp only
  split_ifs <;> rfl

theorem processInput_heading (c s : α) (hc : c ^ 2 + s ^ 2 = 1) (keys : Keys)
    (st : GameState α) :
    Vec3.dot (processInput c s keys st).robotDirection (processInput c s keys st).robotDirection =
        Vec3.dot st.robotDirection st.robotDirection ∧
      (processInput c s keys st).robotDirection.y = st.robotDirection.y := by
  rw [processInput_robotDirection]
  split_ifs
  · exact ⟨by rw [rotateY_dot c (-s) (neg_sin_sq c s hc), rotateY_dot c s hc], rfl⟩
  · exact ⟨rotateY_dot c (-s) (neg_sin_sq c s hc) _, rfl⟩
  · exact ⟨rotateY_dot c s hc _, rfl⟩
  · exact ⟨rfl, rfl⟩

theorem frame_heading (c s : α) (hc : c ^ 2 + s ^ 2 = 1) (rand : Nat → Nat) (keys : Keys)
    (st : GameState α) :
    Vec3.dot (frame c s rand keys st).robotDirection (frame c s rand keys st).robotDirection =
        Vec3.dot st.robotDirection st.robotDirection ∧
      (frame c s rand keys st).robotDirection.y = st.robotDirection.y := by
  cases hg : st.gameOver with
  | true =>
    rw [frame_gameOver _ _ _ _ _ hg]
    unfold gameOverFrame
    split_ifs <;> exact ⟨rfl, rfl⟩
  | false =>
    rw [frame_playing _ _ _ _ _ hg, playingFrame_robotDirection]
    exact processInput_heading c s hc keys st

theorem reachable_heading (c s : α) (hc : c ^ 2 + s ^ 2 = 1) (st : GameState α)
    (h : Reachable c s st) :
    Vec3.dot st.robotDirection st.robotDirection = 1 ∧ st.robotDirection.y = 0 := by
  induction h with
  | init rand => simp [initialState, Vec3.dot]
  | step rand keys st _ ih =>
    obtain ⟨h1, h2⟩ := frame_heading c s hc rand keys st
    exact ⟨h1.trans ih.1, h2.trans ih.2⟩

/-- C14: over the reals, with the cosine and sine of `glm::radians(1)`, the
`A` rotation and the `D` rotation of `processInput` (the latter by the
negated angle) keep the Euclidean norm and the `y` component of every
heading, so does `processInput` for any keys, and every heading reachable
from the initial one has norm 1 and `y = 0`. -/
theorem turning_preserves_heading :
    (∀ h : Vec3 ℝ,
      Real.sqrt (Vec3.dot (rotateY (Real.cos (Real.pi / 180)) (Real.sin (Real.pi / 180)) h)
          (rotateY (Real.cos (Real.pi / 180)) (Real.sin (Real.pi / 180)) h)) =
          Real.sqrt (Vec3.dot h h) ∧
        (rotateY (Real.cos (Real.pi / 180)) (Real.sin (Real.pi / 180)) h).y = h.y ∧
        rotateY (Real.cos (Real.pi / 180)) (-Real.sin (Real.pi / 180)) h =
          rotateY (Real.cos (-(Real.pi / 180))) (Real.sin (-(Real.pi / 180))) h ∧
        Real.sqrt (Vec3.dot (rotateY (Real.cos (Real.pi / 180)) (-Real.sin (Real.pi / 180)) h)
          (rotateY (Real.cos (Real.pi / 180)) (-Real.sin (Real.pi / 180)) h)) =
          Real.sqrt (Vec3.dot h h) ∧
        (rotateY (Real.cos (Real.pi / 180)) (-Real.sin (Real.pi / 180)) h).y = h.y) ∧
    (∀ (keys : Keys) (st : GameState ℝ),
      Real.sqrt (Vec3.dot
          (processInput (Real.cos (Real.pi / 180)) (Real.sin (Real.pi / 180)) keys
            st).robotDirection
          (processInput (Real.cos (Real.pi / 180)) (Real.sin (Real.pi / 180)) keys
            st).robotDirection) =
          Real.sqrt (Vec3.dot st.robotDirection st.robotDirection) ∧
        (processInput (Real.cos (Real.pi / 180)) (Real.sin (Real.pi / 180)) keys
          st).robotDirection.y = st.robotDirection.y) ∧
    (∀ st : GameState ℝ,
      Reachable (Real.cos (Real.pi / 180)) (Real.sin (Real.pi / 180)) st →
        Real.sqrt (Vec3.dot st.robotDirection st.robotDirection) = 1 ∧
          st.robotDirection.y = 0) := by
  have hc : Real.cos (Real.pi / 180) ^ 2 + Real.sin (Real.pi / 180) ^ 2 = 1 :=
    Real.cos_sq_add_sin_sq _
  refine ⟨?_, ?_, ?_⟩
  · intro h
    refine ⟨by rw [rotateY_dot _ _ hc], rfl, ?_, ?_, rfl⟩
    · rw [Real.cos_neg, Real.sin_neg]
    · rw [rotateY_dot _ _ (neg_sin_sq _ _ hc)]
  · intro keys st
    obtain ⟨h1, h2⟩ := processInput_heading _ _ hc keys st
    exact ⟨by rw [h1], h2⟩
  · intro st hst
    obtain ⟨h1, h2⟩ := reachable_heading _ _ hc st hst
    exact ⟨by rw [h1, Real.sqrt_one], h2⟩

/-! ## The advance of the main loop -/

theorem unit_component_bounds (v : Vec3 α) (hu : Vec3.dot v v = 1) :
    -1 ≤ v.x ∧ v.x ≤ 1 ∧ -1 ≤ v.z ∧ v.z ≤ 1 := by
  simp only [Vec3.dot] at hu
  have hx : v.x * v.x ≤ 1 := by nlinarith [mul_self_nonneg v.y, mul_self_nonneg v.z]
  have hz : v.z * v.z ≤ 1 := by nlinarith [mul_self_nonneg v.y, mul_self_nonneg v.x]
  refine ⟨?_, ?_, ?_, ?_⟩
  · by_contra hlt
    nlinarith [not_le.1 hlt]
  · by_contra hlt
    nlinarith [not_le.1 hlt]
  · by_contra hlt
    nlinarith [not_le.1 hlt]
  · by_contra hlt
    nlinarith [not_le.1 hlt]

theorem advance_of_unit (st : GameState α)
    (hx1 : -9 ≤ st.robotPosition.x) (hx2 : st.robotPosition.x ≤ 9)
    (hz1 : -9 ≤ st.robotPosition.z) (hz2 : st.robotPosition.z ≤ 9)
    (hu : Vec3.dot st.robotDirection st.robotDirection = 1) :
    (advance st).robotPosition =
        Vec3.add st.robotPosition (Vec3.smul st.robotDirection robotSpeed) ∧
      -(905 / 100) ≤ (advance st).robotPosition.x ∧ (advance st).robotPosition.x ≤ 905 / 100 ∧
      -(905 / 100) ≤ (advance st).robotPosition.z ∧ (advance st).robotPosition.z ≤ 905 / 100 := by
  obtain ⟨d1, d2, d3, d4⟩ := unit_component_bounds _ hu
  have hnx : (Vec3.add st.robotPosition (Vec3.smul st.robotDirection robotSpeed)).x =
      st.robotPosition.x + st.robotDirection.x * (5 / 100) := rfl
  have hnz : (Vec3.add st.robotPosition (Vec3.smul st.robotDirection robotSpeed)).z =
      st.robotPosition.z + st.robotDirection.z * (5 / 100) := rfl
  have hpos : (advance st).robotPosition =
      Vec3.add st.robotPosition (Vec3.smul st.robotDirection robotSpeed) := by
    unfold advance
    simp only
    rw [if_pos]
    rw [hnx, hnz]
    exact ⟨by linarith, by linarith, by linarith, by linarith⟩
  rw [hpos, hnx, hnz]
  exact ⟨rfl, by linarith, by linarith, by linarith, by linarith⟩

/-- C15: in a frame taken while playing with a unit heading (and `c`, `s` a
cosine and sine, `c² + s² = 1`), the position left by `processInput` lies in
`[-9, 9]`, the guard of the main loop passes, and the position at the end of
the frame is that position plus the heading times `0.05`, whatever keys are
held; its `x` and `z` lie in `[-9.05, 9.05]`. -/
theorem playing_frame_always_advances (c s : α) (rand : Nat → Nat) (keys : Keys)
    (st : GameState α) (hg : st.gameOver = false) (hc : c ^ 2 + s ^ 2 = 1)
    (hu : Vec3.dot st.robotDirection st.robotDirection = 1) :
    (frame c s rand keys st).robotPosition =
        Vec3.add (processInput c s keys st).robotPosition
          (Vec3.smul (processInput c s keys st).robotDirection (5 / 100)) ∧
      (frame c s rand keys st).robotDirection = (processInput c s keys st).robotDirection ∧
      (-9 ≤ (processInput c s keys st).robotPosition.x ∧
        (processInput c s keys st).robotPosition.x ≤ 9 ∧
        -9 ≤ (processInput c s keys st).robotPosition.z ∧
        (processInput c s keys st).robotPosition.z ≤ 9) ∧
      -(905 / 100) ≤ (frame c s rand keys st).robotPosition.x ∧
      (frame c s rand keys st).robotPosition.x ≤ 905 / 100 ∧
      -(905 / 100) ≤ (frame c s rand keys st).robotPosition.z ∧
      (frame c s rand keys st).robotPosition.z ≤ 905 / 100 := by
  have hb := processInput_position_bounds c s keys st
  have hd : Vec3.dot (processInput c s keys st).robotDirection
      (processInput c s keys st).robotDirection = 1 :=
    (processInput_heading c s hc keys st).1.trans hu
  obtain ⟨h1, h2, h3, h4, h5⟩ :=
    advance_of_unit (processInput c s keys st) hb.1 hb.2.1 hb.2.2.1 hb.2.2.2 hd
  rw [frame_playing c s rand keys st hg, playingFrame_robotPosition, playingFrame_robotDirection]
  exact ⟨h1, rfl, hb, h2, h3, h4, h5⟩

/-- Witness of C15 over the reals, with the cosine and sine of one degree,
at the initial state with `A` and `W` held. -/
theorem playing_frame_always_advances_witness :
    (initialState (fun _ => 0) : GameState ℝ).gameOver = false ∧
      Real.cos (Real.pi / 180) ^ 2 + Real.sin (Real.pi / 180) ^ 2 = 1 ∧
      Vec3.dot (initialState (fun _ => 0) : GameState ℝ).robotDirection
        (initialState (fun _ => 0) : GameState ℝ).robotDirection = 1 ∧
      (frame (Real.cos (Real.pi / 180)) (Real.sin (Real.pi / 180)) (fun _ => 0)
          ⟨true, false, true, false, false⟩ (initialState (fun _ => 0))).robotPosition =
        Vec3.add
          (processInput (Real.cos (Real.pi / 180)) (Real.sin (Real.pi / 180))
            ⟨true, false, true, false, false⟩ (initialState (fun _ => 0))).robotPosition
          (Vec3.smul
            (processInput (Real.cos (Real.pi / 180)) (Real.sin (Real.pi / 180))
              ⟨true, false, true, false, false⟩ (initialState (fun _ => 0))).robotDirection
            (5 / 100)) :=
  ⟨rfl, Real.cos_sq_add_sin_sq _, by simp [initialState, Vec3.dot],
    (playing_frame_always_advances (Real.cos (Real.pi / 180)) (Real.sin (Real.pi / 180))
      (fun _ => 0) ⟨true, false, true, false, false⟩ (initialState (fun _ => 0)) rfl
      (Real.cos_sq_add_sin_sq _) (by simp [initialState, Vec3.dot])).1⟩


/-! ## The collision pass on the machine -/

theorem checkCollisionsFromWith_append (near : Vec3 ℚ → Bool) (incr : Int → Int)
    (suf : List (Vec3 ℚ)) :
    ∀ (pre : List (Vec3 ℚ)) (score : Int),
      checkCollisionsFromWith near incr (pre ++ suf) pre.length score =
        (pre ++ suf.filter (fun o => !near o), incr^[(suf.filter near).length] score) := by
  induction suf with
  | nil =>
    intro pre score
    rw [checkCollisionsFromWith]
    simp
  | cons o suf ih =>
    intro pre score
    rw [checkCollisionsFromWith]
    have hlt : pre.length < (pre ++ o :: suf).length := by simp
    rw [dif_pos hlt]
    have hget : (pre ++ o :: suf).get ⟨pre.length, hlt⟩ = o := by
      rw [List.get_eq_getElem, List.getElem_append_right (le_refl _)]
      simp
    rw [hget]
    by_cases hc : near o = true
    · rw [if_pos hc]
      have he : (pre ++ o :: suf).eraseIdx pre.length = pre ++ suf := by
        simp [List.eraseIdx_append_of_length_le]
      rw [he, ih pre (incr score)]
      simp [hc]
    · rw [if_neg hc]
      have ha : pre ++ o :: suf = (pre ++ [o]) ++ suf := by simp
      have hl : pre.length + 1 = (pre ++ [o]).length := by simp
      rw [ha, hl, ih (pre ++ [o]) score]
      simp [hc]

theorem checkCollisionsF32_objects (st : GameState ℚ) :
    (checkCollisionsF32 st).objects =
      st.objects.filter (fun o => !closerF32 st.robotPosition o) := by
  have h := checkCollisionsFromWith_append (closerF32 st.robotPosition)
    (fun n => wrapInt32 (n + 1)) st.objects [] st.score
  simp only [List.nil_append, List.length_nil] at h
  unfold checkCollisionsF32
  rw [h]

theorem checkCollisionsF32_score (st : GameState ℚ) :
    (checkCollisionsF32 st).score =
      (fun n => wrapInt32 (n + 1))^[(st.objects.filter
        (closerF32 st.robotPosition)).length] st.score := by
  have h := checkCollisionsFromWith_append (closerF32 st.robotPosition)
    (fun n => wrapInt32 (n + 1)) st.objects [] st.score
  simp only [List.nil_append, List.length_nil] at h
  unfold checkCollisionsF32
  rw [h]


theorem F32.bitLengthAux_eq_size :
    ∀ fuel n : Nat, n ≤ fuel → F32.bitLengthAux fuel n = Nat.size n := by
  intro fuel
  induction fuel with
  | zero =>
    intro n hn
    have h0 : n = 0 := by omega
    subst h0
    simp [F32.bitLengthAux]
  | succ fuel ih =>
    intro n hn
    unfold F32.bitLengthAux
    by_cases h0 : n = 0
    · subst h0
      simp
    · rw [if_neg h0, ih (n / 2) (by omega)]
      have hb : Nat.bit (Nat.bodd n) (n / 2) = n := by
        rw [← Nat.div2_val]
        exact Nat.bit_decomp n
      have hs := Nat.size_bit (b := Nat.bodd n) (n := n / 2) (by rw [hb]; exact h0)
      rw [hb] at hs
      exact hs.symm

theorem F32.bitLength_eq_size (n : Nat) : F32.bitLength n = Nat.size n :=
  F32.bitLengthAux_eq_size n n (le_refl n)

theorem F32.bitLength_bounds (n : Nat) (hn : 0 < n) :
    2 ^ (F32.bitLength n - 1) ≤ n ∧ n < 2 ^ F32.bitLength n := by
  rw [F32.bitLength_eq_size]
  refine ⟨?_, Nat.lt_size_self n⟩
  have hpos : 0 < Nat.size n := Nat.size_pos.2 hn
  exact Nat.lt_size.1 (by omega)

theorem F32.pow2_eq_zpow (k : Int) : F32.pow2 k = (2 : ℚ) ^ k := by
  unfold F32.pow2
  split_ifs with h
  · obtain ⟨m, rfl⟩ := Int.eq_ofNat_of_zero_le h
    simp
  · obtain ⟨m, hm⟩ := Int.eq_ofNat_of_zero_le (by omega : 0 ≤ -k)
    have hk : k = -(m : Int) := by omega
    subst hk
    simp

/-- The exponent `ilog2 q` of a positive rational brackets it between two
consecutive powers of two. -/
theorem F32.ilog2_spec (q : ℚ) (hq : 0 < q) :
    (2 : ℚ) ^ F32.ilog2 q ≤ q ∧ q < (2 : ℚ) ^ (F32.ilog2 q + 1) := by
  have hnum : 0 < q.num := Rat.num_pos.2 hq
  have ha : 0 < q.num.natAbs := Int.natAbs_pos.2 (ne_of_gt hnum)
  obtain ⟨ha1, ha2⟩ := F32.bitLength_bounds q.num.natAbs ha
  obtain ⟨hb1, hb2⟩ := F32.bitLength_bounds q.den q.den_pos
  have hla : 1 ≤ F32.bitLength q.num.natAbs := by
    by_contra h
    have h0 : F32.bitLength q.num.natAbs = 0 := by omega
    rw [h0] at ha2
    omega
  have hlb : 1 ≤ F32.bitLength q.den := by
    by_contra h
    have h0 : F32.bitLength q.den = 0 := by omega
    rw [h0] at hb2
    have := q.den_pos
    omega
  have hqa : q = (q.num.natAbs : ℚ) / (q.den : ℚ) := by
    have h2 : (q.num.natAbs : ℚ) = (q.num : ℚ) := by
      rw [Nat.cast_natAbs, abs_of_pos hnum]
    rw [h2]
    exact (Rat.num_div_den q).symm
  have hden : (0 : ℚ) < (q.den : ℚ) := by exact_mod_cast q.den_pos
  set la := F32.bitLength q.num.natAbs with hla_def
  set lb := F32.bitLength q.den with hlb_def
  have hA1 : (2 : ℚ) ^ (la - 1) ≤ (q.num.natAbs : ℚ) := by exact_mod_cast ha1
  have hA2 : (q.num.natAbs : ℚ) < (2 : ℚ) ^ la := by exact_mod_cast ha2
  have hB1 : (2 : ℚ) ^ (lb - 1) ≤ (q.den : ℚ) := by exact_mod_cast hb1
  have hB2 : (q.den : ℚ) < (2 : ℚ) ^ lb := by exact_mod_cast hb2
  have hupper : q < (2 : ℚ) ^ ((la : Int) - (lb : Int) + 1) := by
    have he : ((la : Int) - (lb : Int) + 1) = ((la : Nat) : Int) - ((lb - 1 : Nat) : Int) := by
      omega
    rw [he, zpow_sub₀ (by norm_num), zpow_natCast, zpow_natCast, hqa, div_lt_div_iff₀ hden
      (by positivity)]
    calc (q.num.natAbs : ℚ) * 2 ^ (lb - 1) < 2 ^ la * 2 ^ (lb - 1) := by
          apply mul_lt_mul_of_pos_right hA2 (by positivity)
      _ ≤ 2 ^ la * (q.den : ℚ) := by
          apply mul_le_mul_of_nonneg_left hB1 (by positivity)
  have hlower : (2 : ℚ) ^ ((la : Int) - (lb : Int) - 1) ≤ q := by
    have he : ((la : Int) - (lb : Int) - 1) = ((la - 1 : Nat) : Int) - ((lb : Nat) : Int) := by
      omega
    rw [he, zpow_sub₀ (by norm_num), zpow_natCast, zpow_natCast, hqa, div_le_div_iff₀
      (by positivity) hden]
    calc (2 : ℚ) ^ (la - 1) * (q.den : ℚ) ≤ (q.num.natAbs : ℚ) * (q.den : ℚ) := by
          apply mul_le_mul_of_nonneg_right hA1 (le_of_lt hden)
      _ ≤ (q.num.natAbs : ℚ) * 2 ^ lb := by
          apply mul_le_mul_of_nonneg_left (le_of_lt hB2) (by positivity)
  unfold F32.ilog2
  simp only [← hla_def, ← hlb_def]
  split_ifs with h
  · rw [F32.pow2_eq_zpow] at h
    exact ⟨h, hupper⟩
  · rw [F32.pow2_eq_zpow] at h
    refine ⟨hlower, ?_⟩
    rw [sub_add_cancel]
    exact not_le.1 h

/-! ## Rounding is to a nearest value -/

theorem F32.roundHalfEven_near (q : ℚ) :
    |((F32.roundHalfEven q : Int) : ℚ) - q| ≤ 1 / 2 := by
  have h1 : ((Rat.floor q : Int) : ℚ) ≤ q := Int.floor_le q
  have h2 : q < ((Rat.floor q : Int) : ℚ) + 1 := Int.lt_floor_add_one q
  unfold F32.roundHalfEven
  simp only
  rw [abs_le]
  split_ifs with c1 c2 c3
  · constructor <;> linarith
  · push_cast
    constructor <;> linarith
  · constructor <;> linarith
  · push_cast
    constructor <;> linarith

/-- The binary32 rounding of `q ≠ 0` is an integer multiple of the quantum
`2 ^ k`, where `k` is the exponent of `q` less 23 (at least `-149`), and lies
within half a quantum of `q`. -/
theorem F32.round_near (q : ℚ) (hq : q ≠ 0) :
    ∃ m : Int,
      F32.round q =
          (m : ℚ) * (2 : ℚ) ^ max (F32.ilog2 (if q < 0 then -q else q) - 23) (-149) ∧
        |F32.round q - q| ≤
          (2 : ℚ) ^ max (F32.ilog2 (if q < 0 then -q else q) - 23) (-149) / 2 := by
  unfold F32.round
  rw [if_neg hq]
  simp only [F32.pow2_eq_zpow]
  set k := max (F32.ilog2 (if q < 0 then -q else q) - 23) (-149) with hk
  have hpos : (0 : ℚ) < (2 : ℚ) ^ k := by positivity
  refine ⟨F32.roundHalfEven (q / (2 : ℚ) ^ k), rfl, ?_⟩
  have h := F32.roundHalfEven_near (q / (2 : ℚ) ^ k)
  have he : ((F32.roundHalfEven (q / (2 : ℚ) ^ k) : Int) : ℚ) * (2 : ℚ) ^ k - q =
      (((F32.roundHalfEven (q / (2 : ℚ) ^ k) : Int) : ℚ) - q / (2 : ℚ) ^ k) * (2 : ℚ) ^ k := by
    field_simp
  rw [he, abs_mul, abs_of_pos hpos]
  calc |((F32.roundHalfEven (q / (2 : ℚ) ^ k) : Int) : ℚ) - q / (2 : ℚ) ^ k| * (2 : ℚ) ^ k
      ≤ 1 / 2 * (2 : ℚ) ^ k := mul_le_mul_of_nonneg_right h (le_of_lt hpos)
    _ = (2 : ℚ) ^ k / 2 := by ring

/-- The rounding step of the square root returns an integer `r` whose
half-integer neighbours bracket the root: `(r - 1/2)² ≤ s ≤ (r + 1/2)²`,
when `n ≥ 1` is the integer part of the root of `s`. -/
theorem F32.sqrtRound_near (s : ℚ) (n : Nat) (hn : 1 ≤ n) (h1 : ((n : ℚ)) * n ≤ s)
    (h2 : s < ((n : ℚ) + 1) * ((n : ℚ) + 1)) :
    ((F32.sqrtRound s n : ℚ) - 1 / 2) * ((F32.sqrtRound s n : ℚ) - 1 / 2) ≤ s ∧
      s ≤ ((F32.sqrtRound s n : ℚ) + 1 / 2) * ((F32.sqrtRound s n : ℚ) + 1 / 2) := by
  have hn1 : (1 : ℚ) ≤ (n : ℚ) := by exact_mod_cast hn
  unfold F32.sqrtRound
  simp only
  split_ifs with c1 c2 c3
  · constructor <;> nlinarith
  · push_cast
    constructor <;> nlinarith
  · constructor <;> nlinarith
  · push_cast
    constructor <;> nlinarith

/-! ## Evaluating the `float` test -/

theorem F32.sqrt_eq (x : ℚ) (k : Int) (N n : Nat) (hx : 0 < x)
    (hk : F32.ilog2 x / 2 - 23 = k)
    (hN : (Rat.floor (x / F32.pow2 (2 * k))).toNat = N)
    (h1 : n * n ≤ N) (h2 : N < (n + 1) * (n + 1)) :
    F32.sqrt x = (F32.sqrtRound (x / F32.pow2 (2 * k)) n : ℚ) * F32.pow2 k := by
  unfold F32.sqrt
  rw [if_neg (not_le.2 hx)]
  simp only [hk, hN]
  rw [← Nat.eq_sqrt.2 ⟨h1, h2⟩]

theorem captureRadiusF32_eq : captureRadiusF32 = 5033165 / 8388608 := by
  unfold captureRadiusF32
  decide!

theorem distanceF32_rounding_first :
    distanceF32 ⟨0, 0, 0⟩ ⟨1 / 2, 0, 5564373 / 16777216⟩ = 5033165 / 8388608 := by
  have hd : dotF32 ⟨0, 0, 0⟩ ⟨1 / 2, 0, 5564373 / 16777216⟩ = 3019899 / 8388608 := by decide!
  unfold distanceF32
  rw [hd, F32.sqrt_eq _ (-24) 101330995642368 10066329 (by norm_num) (by decide!) (by decide!)
    (by norm_num) (by norm_num)]
  decide!

theorem distanceF32_rounding_second :
    distanceF32 ⟨0, 0, 0⟩ ⟨3 / 8, 0, 3929013 / 8388608⟩ = 5033165 / 8388608 := by
  have hd : dotF32 ⟨0, 0, 0⟩ ⟨3 / 8, 0, 3929013 / 8388608⟩ = 3019899 / 8388608 := by decide!
  unfold distanceF32
  rw [hd, F32.sqrt_eq _ (-24) 101330995642368 10066329 (by norm_num) (by decide!) (by decide!)
    (by norm_num) (by norm_num)]
  decide!

theorem distanceF32_scenario :
    distanceF32 ⟨0, 1 / 2, 0⟩ ⟨0, F32.round (2 / 10), 0⟩ = 5033165 / 16777216 := by
  have hd : dotF32 ⟨0, 1 / 2, 0⟩ ⟨0, F32.round (2 / 10), 0⟩ = 3019899 / 33554432 := by decide!
  unfold distanceF32
  rw [hd, F32.sqrt_eq _ (-25) 101330995642368 10066329 (by norm_num) (by decide!) (by decide!)
    (by norm_num) (by norm_num)]
  decide!

theorem closerF32_rounding_first :
    closerF32 ⟨0, 0, 0⟩ ⟨1 / 2, 0, 5564373 / 16777216⟩ = false := by
  unfold closerF32
  rw [distanceF32_rounding_first, captureRadiusF32_eq]
  simp

theorem closerF32_rounding_second :
    closerF32 ⟨0, 0, 0⟩ ⟨3 / 8, 0, 3929013 / 8388608⟩ = false := by
  unfold closerF32
  rw [distanceF32_rounding_second, captureRadiusF32_eq]
  simp

theorem closerF32_scenario :
    closerF32 ⟨0, 1 / 2, 0⟩ ⟨0, F32.round (2 / 10), 0⟩ = true := by
  unfold closerF32
  rw [distanceF32_scenario, captureRadiusF32_eq]
  norm_num

theorem checkCollisionsF32_scenario_objects (n : Int) :
    (checkCollisionsF32 { scenarioState with score := n }).objects = [] := by
  rw [checkCollisionsF32_objects]
  show List.filter (fun o => !closerF32 ⟨0, 1 / 2, 0⟩ o) [⟨0, F32.round (2 / 10), 0⟩] = []
  rw [List.filter_cons_of_neg (by rw [closerF32_scenario]; simp)]
  rfl

theorem checkCollisionsF32_scenario_score (n : Int) :
    (checkCollisionsF32 { scenarioState with score := n }).score = wrapInt32 (n + 1) := by
  rw [checkCollisionsF32_score]
  show (fun m => wrapInt32 (m + 1))^[(List.filter (closerF32 ⟨0, 1 / 2, 0⟩)
    [⟨0, F32.round (2 / 10), 0⟩]).length] n = _
  rw [List.filter_cons_of_pos closerF32_scenario]
  rfl

theorem sqrt_distance2_lt (a b : Vec3 ℚ) (h : Vec3.distance2 a b < 6 / 10 * (6 / 10)) :
    Real.sqrt ((Vec3.distance2 a b : ℚ) : ℝ) < 6 / 10 := by
  rw [Real.sqrt_lt' (by norm_num)]
  have h2 : ((Vec3.distance2 a b : ℚ) : ℝ) < ((6 / 10 * (6 / 10) : ℚ) : ℝ) := by
    exact_mod_cast h
  calc ((Vec3.distance2 a b : ℚ) : ℝ) < ((6 / 10 * (6 / 10) : ℚ) : ℝ) := h2
    _ = (6 / 10 : ℝ) ^ 2 := by norm_num

/-- C1, counterexample: in `roundingState` the robot is at the origin and the
two collectibles, whose coordinates are binary32 values, lie at Euclidean
distances below `0.6`; the machine computes both distances as `0.6f`, the test
`< 0.6f` fails, and the pass keeps both collectibles and the score. -/
theorem float_test_keeps_collectibles_within_radius :
    (checkCollisionsF32 roundingState).objects = roundingState.objects ∧
      (checkCollisionsF32 roundingState).score = roundingState.score ∧
      roundingState.robotPosition = ⟨0, 0, 0⟩ ∧
      roundingState.objects = [⟨1 / 2, 0, 5564373 / 16777216⟩, ⟨3 / 8, 0, 3929013 / 8388608⟩] ∧
      Real.sqrt ((Vec3.distance2 (⟨0, 0, 0⟩ : Vec3 ℚ) ⟨1 / 2, 0, 5564373 / 16777216⟩ : ℚ) : ℝ) <
        6 / 10 ∧
      Real.sqrt ((Vec3.distance2 (⟨0, 0, 0⟩ : Vec3 ℚ) ⟨3 / 8, 0, 3929013 / 8388608⟩ : ℚ) : ℝ) <
        6 / 10 ∧
      distanceF32 ⟨0, 0, 0⟩ ⟨1 / 2, 0, 5564373 / 16777216⟩ = captureRadiusF32 ∧
      distanceF32 ⟨0, 0, 0⟩ ⟨3 / 8, 0, 3929013 / 8388608⟩ = captureRadiusF32 ∧
      F32.round (1 / 2) = 1 / 2 ∧ F32.round (5564373 / 16777216) = 5564373 / 16777216 ∧
      F32.round (3 / 8) = 3 / 8 ∧ F32.round (3929013 / 8388608) = 3929013 / 8388608 := by
  refine ⟨?_, ?_, rfl, rfl, ?_, ?_, ?_, ?_, by decide!, by decide!, by decide!, by decide!⟩
  · rw [checkCollisionsF32_objects]
    show List.filter (fun o => !closerF32 ⟨0, 0, 0⟩ o)
      [⟨1 / 2, 0, 5564373 / 16777216⟩, ⟨3 / 8, 0, 3929013 / 8388608⟩] = _
    rw [List.filter_cons_of_pos (by rw [closerF32_rounding_first]; rfl),
      List.filter_cons_of_pos (by rw [closerF32_rounding_second]; rfl)]
    rfl
  · rw [checkCollisionsF32_score]
    show (fun m => wrapInt32 (m + 1))^[(List.filter (closerF32 ⟨0, 0, 0⟩)
      [⟨1 / 2, 0, 5564373 / 16777216⟩, ⟨3 / 8, 0, 3929013 / 8388608⟩]).length] _ = _
    rw [List.filter_cons_of_neg (by rw [closerF32_rounding_first]; simp),
      List.filter_cons_of_neg (by rw [closerF32_rounding_second]; simp)]
    rfl
  · apply sqrt_distance2_lt
    simp only [Vec3.distance2, Vec3.dot, Vec3.sub]
    norm_num
  · apply sqrt_distance2_lt
    simp only [Vec3.distance2, Vec3.dot, Vec3.sub]
    norm_num
  · rw [distanceF32_rounding_first, captureRadiusF32_eq]
  · rw [distanceF32_rounding_second, captureRadiusF32_eq]

/-- C1, amended: one `checkCollisions` pass leaves exactly the collectibles
for which the program's test `glm::distance(robotPosition, o) < 0.6f`, as
computed in binary32, fails, in their original order, so no remaining
collectible passes that test.  In exact arithmetic, over any ordered field,
these are the collectibles with `0.36 ≤ distance²`, and over the reals those
with `0.6 ≤ sqrt distance²`.  The robot at `(0, 0.5, 0)` with the single
collectible `(0, 0.2, 0)` ends with no collectible and score 1, on the machine
as in exact arithmetic. -/
theorem checkCollisions_removes_exactly_tested :
    (∀ st : GameState ℚ,
      (checkCollisionsF32 st).objects =
          st.objects.filter
            (fun o => decide (¬ distanceF32 st.robotPosition o < captureRadiusF32)) ∧
        ∀ o ∈ (checkCollisionsF32 st).objects,
          ¬ distanceF32 st.robotPosition o < captureRadiusF32) ∧
    (∀ (β : Type) [LinearOrderedField β] (st : GameState β),
      (checkCollisions st).objects =
        st.objects.filter
          (fun o => decide ((6 / 10 : β) * (6 / 10) ≤ Vec3.distance2 st.robotPosition o))) ∧
    (∀ st : GameState ℝ,
      (checkCollisions st).objects =
          st.objects.filter
            (fun o => decide ((6 / 10 : ℝ) ≤ Real.sqrt (Vec3.distance2 st.robotPosition o))) ∧
        ∀ o ∈ (checkCollisions st).objects,
          ¬ Real.sqrt (Vec3.distance2 st.robotPosition o) < 6 / 10) ∧
    (checkCollisionsF32 scenarioState).objects = [] ∧
    (checkCollisionsF32 scenarioState).score = 1 ∧
    (checkCollisions
        ({ robotPosition := ⟨0, 5 / 10, 0⟩, robotDirection := ⟨0, 0, -1⟩,
           objects := [⟨0, 2 / 10, 0⟩], score := 0, batteryLife := 100,
           gameOver := false, title := "" } : GameState ℚ)).objects = [] ∧
    (checkCollisions
        ({ robotPosition := ⟨0, 5 / 10, 0⟩, robotDirection := ⟨0, 0, -1⟩,
           objects := [⟨0, 2 / 10, 0⟩], score := 0, batteryLife := 100,
           gameOver := false, title := "" } : GameState ℚ)).score = 1 := by
  refine ⟨?_, ?_, ?_, ?_, ?_, ?_, ?_⟩
  · intro st
    have hf : (checkCollisionsF32 st).objects =
        st.objects.filter
          (fun o => decide (¬ distanceF32 st.robotPosition o < captureRadiusF32)) := by
      rw [checkCollisionsF32_objects]
      congr 1
      funext o
      unfold closerF32
      by_cases h : distanceF32 st.robotPosition o < captureRadiusF32
      · simp [h]
      · simp [h]
    refine ⟨hf, ?_⟩
    intro o ho
    rw [hf] at ho
    simpa using (List.mem_filter.1 ho).2
  · intro β _ st
    rw [checkCollisions_objects]
    congr 1
    funext o
    by_cases h : Vec3.distance2 st.robotPosition o < 6 / 10 * (6 / 10)
    · simp [Vec3.closer, captureRadius, h, not_le.2 h]
    · simp [Vec3.closer, captureRadius, h, not_lt.1 h]
  · intro st
    have hf : (checkCollisions st).objects =
        st.objects.filter
          (fun o => decide ((6 / 10 : ℝ) ≤ Real.sqrt (Vec3.distance2 st.robotPosition o))) := by
      rw [checkCollisions_objects]
      congr 1
      funext o
      by_cases hc : Vec3.closer st.robotPosition o captureRadius = true
      · have h1 := (closer_iff_sqrt st.robotPosition o).1 hc
        simp [hc, h1]
      · have h1 : ¬ Real.sqrt (Vec3.distance2 st.robotPosition o) < 6 / 10 :=
          fun h => hc ((closer_iff_sqrt st.robotPosition o).2 h)
        simp [hc, not_lt.1 h1]
    refine ⟨hf, ?_⟩
    intro o ho
    rw [hf] at ho
    have h2 := (List.mem_filter.1 ho).2
    simpa using h2
  · exact checkCollisionsF32_scenario_objects 0
  · rw [show scenarioState = { scenarioState with score := 0 } from rfl,
      checkCollisionsF32_scenario_score]
    decide
  · rw [checkCollisions_objects]
    simp [Vec3.closer, Vec3.distance2, Vec3.dot, Vec3.sub, captureRadius]
    norm_num
  · rw [checkCollisions_score]
    simp [Vec3.closer, Vec3.distance2, Vec3.dot, Vec3.sub, captureRadius]
    norm_num


/-! ## The score in play -/

theorem length_filter_closer (p : Vec3 α) (l : List (Vec3 α)) :
    (l.filter (fun o => Vec3.closer p o captureRadius)).length +
      (l.filter (fun o => !Vec3.closer p o captureRadius)).length = l.length := by
  induction l with
  | nil => simp
  | cons o l ih =>
    by_cases hc : Vec3.closer p o captureRadius = true
    · simp [hc]; omega
    · simp [hc]; omega

theorem checkCollisions_score_add_length (st : GameState α) :
    (checkCollisions st).score + ((checkCollisions st).objects.length : Int) =
        st.score + (st.objects.length : Int) ∧
      st.score ≤ (checkCollisions st).score := by
  rw [checkCollisions_score, checkCollisions_objects]
  have h := length_filter_closer st.robotPosition st.objects
  constructor <;> omega

theorem processInput_score_add_length (c s : α) (keys : Keys) (st : GameState α) :
    (processInput c s keys st).score + ((processInput c s keys st).objects.length : Int) =
        st.score + (st.objects.length : Int) ∧
      st.score ≤ (processInput c s keys st).score := by
  unfold processInput
  simp only
  split_ifs <;> exact checkCollisions_score_add_length _

theorem advance_score (st : GameState α) : (advance st).score = st.score := by
  unfold advance
  simp only
  split_ifs <;> rfl

theorem playingFrame_score_add_length (c s : α) (keys : Keys) (st : GameState α) :
    (playingFrame c s keys st).score + ((playingFrame c s keys st).objects.length : Int) =
        st.score + (st.objects.length : Int) ∧
      st.score ≤ (playingFrame c s keys st).score := by
  have hsc : (playingFrame c s keys st).score =
      (checkCollisions (advance (processInput c s keys st))).score := by
    unfold playingFrame checkCleared checkDepleted
    split_ifs <;> rfl
  rw [hsc, playingFrame_objects]
  obtain ⟨h1, h2⟩ := checkCollisions_score_add_length (advance (processInput c s keys st))
  obtain ⟨h3, h4⟩ := processInput_score_add_length c s keys st
  rw [advance_score, advance_objects] at h1
  rw [advance_score] at h2
  constructor <;> omega

/-- In every state of play the score is non-negative and the score and the
number of collectibles add up to 20, so an increment per collectible never
reaches `INT_MAX`. -/
theorem reachable_score_room (c s : α) (st : GameState α) (h : Reachable c s st) :
    0 ≤ st.score ∧ st.score + (st.objects.length : Int) = 20 := by
  induction h with
  | init rand =>
    simp [initialState, generateObjects, generateObjectsLoop_length]
  | step rand keys st _ ih =>
    cases hg : st.gameOver with
    | true =>
      rw [frame_gameOver _ _ _ _ _ hg]
      unfold gameOverFrame
      split_ifs
      · simp [generateObjects, generateObjectsLoop_length]
      · exact ih
    | false =>
      rw [frame_playing _ _ _ _ _ hg]
      obtain ⟨h1, h2⟩ := playingFrame_score_add_length c s keys st
      constructor <;> omega

end VacuumCleaner
